import Mathlib

/-!
Verification development for the GitSummarizer repository
(src/github_repo_fetcher.py).

The Python source is shallowly embedded: pure helpers become Lean
functions, the paginated HTTP fetch loop becomes a recursion over a list
of scripted network events, machine integers are Nat/Int, and fallible
code returns Option.  The Python json module (used by write_file via
json.dump with indent=4 and default ensure_ascii, and by the read-back in
the round-trip property) is embedded as an executable serializer and an
executable parser over a Json value type; JSON numbers are modelled as
integers, which covers every field the program produces.
-/

/-! ## Characters and digits -/

def isWsCh (c : Char) : Bool := c == ' ' || c == '\n' || c == '\t' || c == '\r'

def isDigitCh (c : Char) : Bool := decide ('0' ≤ c) && decide (c ≤ '9')

def digitVal (c : Char) : Nat := c.toNat - 48

def digitCh (k : Nat) : Char := Char.ofNat (48 + k)

/-- Decimal digits of a natural number, most significant first. -/
def natToDigits (n : Nat) : List Char :=
  if h : n < 10 then [digitCh n]
  else natToDigits (n / 10) ++ [digitCh (n % 10)]
decreasing_by exact Nat.div_lt_self (by omega) (by omega)

/-- Embedding of the decimal rendering of a Python int (str/repr). -/
def serInt (n : Int) : List Char :=
  if n < 0 then '-' :: natToDigits n.natAbs else natToDigits n.natAbs

def hexDig (k : Nat) : Char :=
  if k < 10 then Char.ofNat (48 + k) else Char.ofNat (87 + k)

/-- Four lowercase hex digits, as produced by the %04x format in the
Python json encoder. -/
def hex4chars (n : Nat) : List Char :=
  [hexDig (n / 4096 % 16), hexDig (n / 256 % 16), hexDig (n / 16 % 16), hexDig (n % 16)]

/-- Embedding of py_encode_basestring_ascii from the Python json module
(the default ensure_ascii=True escaping): the two-character escapes for
quote, backslash, backspace, formfeed, newline, carriage return and tab;
a u-escape for other control characters and all non-ASCII characters,
with surrogate pairs above U+FFFF; every other character verbatim. -/
def escapeChar (c : Char) : List Char :=
  if c = '"' then ['\\', '"']
  else if c = '\\' then ['\\', '\\']
  else if c = '\x08' then ['\\', 'b']
  else if c = '\x0c' then ['\\', 'f']
  else if c = '\n' then ['\\', 'n']
  else if c = '\r' then ['\\', 'r']
  else if c = '\t' then ['\\', 't']
  else if c.toNat < 0x20 ∨ 0x7f ≤ c.toNat then
    if c.toNat < 0x10000 then '\\' :: 'u' :: hex4chars c.toNat
    else ('\\' :: 'u' :: hex4chars (0xD800 + (c.toNat - 0x10000) / 0x400)) ++
         ('\\' :: 'u' :: hex4chars (0xDC00 + (c.toNat - 0x10000) % 0x400))
  else [c]

def escChars : List Char → List Char
  | [] => []
  | c :: cs => escapeChar c ++ escChars cs

/-! ## JSON values -/

/-- JSON values as handled by the Python json module, with numbers
restricted to integers (the program only ever produces null, strings and
integers inside its records, and the GitHub API fields it copies are of
those shapes). -/
inductive Json where
  | null : Json
  | bool (b : Bool) : Json
  | int (n : Int) : Json
  | str (s : String) : Json
  | arr (items : List Json) : Json
  | obj (fields : List (String × Json)) : Json

mutual

def jsize : Json → Nat
  | .null => 1
  | .bool _ => 1
  | .int _ => 1
  | .str _ => 1
  | .arr l => 1 + jsizeArr l
  | .obj l => 1 + jsizeObj l

def jsizeArr : List Json → Nat
  | [] => 0
  | v :: l => 1 + jsize v + jsizeArr l

def jsizeObj : List (String × Json) → Nat
  | [] => 0
  | (_, v) :: l => 1 + jsize v + jsizeObj l

end

/-! ## Serializer: the Python json module with indent=4

json.dump(obj, f, indent=4) pretty-prints with a newline plus
4*(level) spaces before every item, item separator a comma and key
separator a colon plus space, and empty containers rendered flat. -/

def indentChars (lvl : Nat) : List Char := List.replicate (4 * lvl) ' '

def newlineInd (lvl : Nat) : List Char := '\n' :: indentChars lvl

def serStr (s : String) : List Char := '"' :: (escChars s.data ++ ['"'])

mutual

def serVal : Nat → Json → List Char
  | _, .null => ['n', 'u', 'l', 'l']
  | _, .bool true => ['t', 'r', 'u', 'e']
  | _, .bool false => ['f', 'a', 'l', 's', 'e']
  | _, .int n => serInt n
  | _, .str s => serStr s
  | _, .arr [] => ['[', ']']
  | lvl, .arr (x :: xs) =>
      '[' :: (newlineInd (lvl + 1) ++ serVal (lvl + 1) x ++ serElems (lvl + 1) xs ++
        newlineInd lvl ++ [']'])
  | _, .obj [] => ['\x7b', '\x7d']
  | lvl, .obj ((k, v) :: ms) =>
      '\x7b' :: (newlineInd (lvl + 1) ++ serStr k ++ ':' :: ' ' :: serVal (lvl + 1) v ++
        serMembers (lvl + 1) ms ++ newlineInd lvl ++ ['\x7d'])

def serElems : Nat → List Json → List Char
  | _, [] => []
  | lvl, x :: xs => ',' :: (newlineInd lvl ++ serVal lvl x ++ serElems lvl xs)

def serMembers : Nat → List (String × Json) → List Char
  | _, [] => []
  | lvl, (k, v) :: ms =>
      ',' :: (newlineInd lvl ++ serStr k ++ ':' :: ' ' :: serVal lvl v ++ serMembers lvl ms)

end

/-- Embedding of json.dumps(v, indent=4), which is the text that
json.dump(v, f, indent=4) writes to the file. -/
def json_dumps (v : Json) : String := String.mk (serVal 0 v)

/-! ## Parser: the Python json module reader

json.load skips the whitespace characters space, tab, newline and
carriage return between tokens, parses strings with the standard escape
sequences (including u-escapes and surrogate pairs), and rejects any
trailing data after the document.  Number parsing is restricted to the
integer forms the serializer above can produce. -/

def skipWs (cs : List Char) : List Char := cs.dropWhile isWsCh

def hexVal (c : Char) : Option Nat :=
  if '0' ≤ c ∧ c ≤ '9' then some (c.toNat - 48)
  else if 'a' ≤ c ∧ c ≤ 'f' then some (c.toNat - 87)
  else if 'A' ≤ c ∧ c ≤ 'F' then some (c.toNat - 55)
  else none

def hex4 (a b c d : Char) : Option Nat :=
  match hexVal a, hexVal b, hexVal c, hexVal d with
  | some x, some y, some z, some w => some (4096 * x + 256 * y + 16 * z + w)
  | _, _, _, _ => none

def simpleUnescape (e : Char) : Option Char :=
  if e = '"' then some '"'
  else if e = '\\' then some '\\'
  else if e = '/' then some '/'
  else if e = 'b' then some '\x08'
  else if e = 'f' then some '\x0c'
  else if e = 'n' then some '\n'
  else if e = 'r' then some '\r'
  else if e = 't' then some '\t'
  else none

mutual

def parseStringBody : List Char → Option (List Char × List Char)
  | [] => none
  | c :: rest =>
    if c = '"' then some ([], rest)
    else if c = '\\' then parseEscape rest
    else
      match parseStringBody rest with
      | some (s, r) => some (c :: s, r)
      | none => none
termination_by cs => cs.length
decreasing_by all_goals (simp [List.length]; try omega)

def parseEscape : List Char → Option (List Char × List Char)
  | [] => none
  | e :: rest =>
    if e = 'u' then
      match rest with
      | a :: b :: c :: d :: rest2 =>
        match hex4 a b c d with
        | none => none
        | some n =>
          if 0xD800 ≤ n ∧ n < 0xDC00 then
            match rest2 with
            | '\\' :: 'u' :: a2 :: b2 :: c2 :: d2 :: rest3 =>
              match hex4 a2 b2 c2 d2 with
              | none => none
              | some m =>
                if 0xDC00 ≤ m ∧ m < 0xE000 then
                  match parseStringBody rest3 with
                  | some (s, r) =>
                      some (Char.ofNat (0x10000 + (n - 0xD800) * 0x400 + (m - 0xDC00)) :: s, r)
                  | none => none
                else none
            | _ => none
          else if 0xDC00 ≤ n ∧ n < 0xE000 then none
          else
            match parseStringBody rest2 with
            | some (s, r) => some (Char.ofNat n :: s, r)
            | none => none
      | _ => none
    else
      match simpleUnescape e with
      | some c =>
        match parseStringBody rest with
        | some (s, r) => some (c :: s, r)
        | none => none
      | none => none
termination_by cs => cs.length
decreasing_by all_goals (simp [List.length]; try omega)

end

def digitsToNat (ds : List Char) : Nat := ds.foldl (fun acc c => 10 * acc + digitVal c) 0

mutual

def parseVal : Nat → List Char → Option (Json × List Char)
  | 0, _ => none
  | fuel + 1, cs0 =>
    match skipWs cs0 with
    | [] => none
    | c :: cs =>
      if c = 'n' then
        match cs with
        | 'u' :: 'l' :: 'l' :: r => some (.null, r)
        | _ => none
      else if c = 't' then
        match cs with
        | 'r' :: 'u' :: 'e' :: r => some (.bool true, r)
        | _ => none
      else if c = 'f' then
        match cs with
        | 'a' :: 'l' :: 's' :: 'e' :: r => some (.bool false, r)
        | _ => none
      else if c = '"' then
        match parseStringBody cs with
        | some (s, r) => some (.str (String.mk s), r)
        | none => none
      else if c = '[' then
        match skipWs cs with
        | [] => none
        | c2 :: cs2 =>
          if c2 = ']' then some (.arr [], cs2)
          else
            match parseVal fuel (c2 :: cs2) with
            | some (v, r) =>
              match parseElems fuel r with
              | some (vs, r2) => some (.arr (v :: vs), r2)
              | none => none
            | none => none
      else if c = '\x7b' then
        match skipWs cs with
        | [] => none
        | c2 :: cs2 =>
          if c2 = '\x7d' then some (.obj [], cs2)
          else if c2 = '"' then
            match parseStringBody cs2 with
            | some (k, r) =>
              match skipWs r with
              | [] => none
              | c3 :: r2 =>
                if c3 = ':' then
                  match parseVal fuel r2 with
                  | some (v, r3) =>
                    match parseMembers fuel r3 with
                    | some (ms, r4) => some (.obj ((String.mk k, v) :: ms), r4)
                    | none => none
                  | none => none
                else none
            | none => none
          else none
      else if c = '-' then
        match cs with
        | d :: cs2 =>
          if isDigitCh d then
            some (.int (-(digitsToNat ((d :: cs2).takeWhile isDigitCh) : Int)),
              (d :: cs2).dropWhile isDigitCh)
          else none
        | [] => none
      else if isDigitCh c then
        some (.int (digitsToNat ((c :: cs).takeWhile isDigitCh) : Int),
          (c :: cs).dropWhile isDigitCh)
      else none

def parseElems : Nat → List Char → Option (List Json × List Char)
  | 0, _ => none
  | fuel + 1, cs0 =>
    match skipWs cs0 with
    | [] => none
    | c :: cs =>
      if c = ']' then some ([], cs)
      else if c = ',' then
        match parseVal fuel cs with
        | some (v, r) =>
          match parseElems fuel r with
          | some (vs, r2) => some (v :: vs, r2)
          | none => none
        | none => none
      else none

def parseMembers : Nat → List Char → Option (List (String × Json) × List Char)
  | 0, _ => none
  | fuel + 1, cs0 =>
    match skipWs cs0 with
    | [] => none
    | c :: cs =>
      if c = '\x7d' then some ([], cs)
      else if c = ',' then
        match skipWs cs with
        | [] => none
        | c2 :: cs2 =>
          if c2 = '"' then
            match parseStringBody cs2 with
            | some (k, r) =>
              match skipWs r with
              | [] => none
              | c3 :: r2 =>
                if c3 = ':' then
                  match parseVal fuel r2 with
                  | some (v, r3) =>
                    match parseMembers fuel r3 with
                    | some (ms, r4) => some ((String.mk k, v) :: ms, r4)
                    | none => none
                  | none => none
                else none
            | none => none
          else none
      else none

end

/-- Embedding of json.load on the text of a file: parse one document and
reject trailing non-whitespace data. -/
def json_loads (s : String) : Option Json :=
  match parseVal (s.data.length + 1) s.data with
  | some (v, r) => if skipWs r = [] then some v else none
  | none => none

/-! ## Python string helpers used by the source -/

/-- Embedding of str.lower restricted to ASCII letters; no character the
sentinel comparison can meet lowercases across the ASCII boundary. -/
def pyLowerChar (c : Char) : Char :=
  if 'A' ≤ c ∧ c ≤ 'Z' then Char.ofNat (c.toNat + 32) else c

def pyLower (s : String) : String := String.mk (s.data.map pyLowerChar)

/-- The characters stripped by str.strip with no argument: exactly the
codepoints for which str.isspace is true, namely ASCII whitespace, the
information separators 0x1c-0x1f, next line 0x85, no-break space 0xa0,
and the Unicode space and line/paragraph separators. -/
def pyIsSpace (c : Char) : Bool :=
  ([9, 10, 11, 12, 13, 28, 29, 30, 31, 32, 133, 160, 5760, 8192, 8193, 8194, 8195, 8196,
    8197, 8198, 8199, 8200, 8201, 8202, 8232, 8233, 8239, 8287, 12288] : List Nat).contains
    c.toNat

def pyStrip (s : String) : String :=
  String.mk (((s.data.dropWhile pyIsSpace).reverse.dropWhile pyIsSpace).reverse)

def decDigits? (cs : List Char) : Option Nat :=
  if cs ≠ [] ∧ cs.all isDigitCh then some (digitsToNat cs) else none

/-- Embedding of int(s) on a header string: surrounding whitespace is
ignored, an optional sign precedes a nonempty run of decimal digits, and
anything else raises ValueError (modelled as none). -/
def pyInt (s : String) : Option Int :=
  match (pyStrip s).data with
  | '-' :: rest => (decDigits? rest).map (fun n => -(n : Int))
  | '+' :: rest => (decDigits? rest).map (fun n => (n : Int))
  | cs => (decDigits? cs).map (fun n => (n : Int))

/-! ## The datetime conversion (convert_reset_to_ist, source lines 17-21) -/

/-- Proleptic Gregorian civil date (year, month, day) of a day count
relative to 1970-01-01, the standard days-to-civil algorithm used by
calendar libraries. -/
def civilFromDays (z0 : Int) : Int × Nat × Nat :=
  let z := z0 + 719468
  let era : Int := Int.fdiv z 146097
  let doe : Nat := (Int.fmod z 146097).toNat
  let yoe : Nat := (doe - doe / 1460 + doe / 36524 - doe / 146096) / 365
  let y : Int := (yoe : Int) + era * 400
  let doy : Nat := doe - (365 * yoe + yoe / 4 - yoe / 100)
  let mp : Nat := (5 * doy + 2) / 153
  let d : Nat := doy - (153 * mp + 2) / 5 + 1
  let m : Nat := if mp < 10 then mp + 3 else mp - 9
  (if m ≤ 2 then y + 1 else y, m, d)

def monthAbbr : Nat → String
  | 1 => "Jan"
  | 2 => "Feb"
  | 3 => "Mar"
  | 4 => "Apr"
  | 5 => "May"
  | 6 => "Jun"
  | 7 => "Jul"
  | 8 => "Aug"
  | 9 => "Sep"
  | 10 => "Oct"
  | 11 => "Nov"
  | 12 => "Dec"
  | _ => ""

def pad2 (n : Nat) : String := if n < 10 then "0" ++ toString n else toString n

/-- strftime of the pattern used at source line 21 on the civil time of
t seconds since the Unix epoch: zero-padded day, abbreviated month, year,
zero-padded 12-hour clock time, AM or PM, and the literal suffix IST. -/
def strftimeIST (t : Int) : String :=
  let days := Int.fdiv t 86400
  let sod := (Int.fmod t 86400).toNat
  let ymd := civilFromDays days
  let hh := sod / 3600
  let mi := sod % 3600 / 60
  let ss := sod % 60
  let h12 := if hh % 12 = 0 then 12 else hh % 12
  let ap := if hh < 12 then "AM" else "PM"
  pad2 ymd.2.2 ++ "-" ++ monthAbbr ymd.2.1 ++ "-" ++ toString ymd.1 ++ " " ++
    pad2 h12 ++ ":" ++ pad2 mi ++ ":" ++ pad2 ss ++ " " ++ ap ++ " IST"

/-- Embedding of convert_reset_to_ist (source lines 17-21): interpret the
timestamp as UTC, add the fixed offset of 5 hours 30 minutes, and format
with strftime as day-month-year, 12-hour time, AM/PM and IST. -/
def convert_reset_to_ist (reset_timestamp : Int) : String :=
  strftimeIST (reset_timestamp + (5 * 3600 + 30 * 60))

/-! ## The fetcher (source lines 24-107) -/

/-- One HTTP response as the fetcher observes it: the final status after
any adapter-level retries, the response headers, and the outcome of
resp.json() on the body (none when the body does not parse as JSON and
resp.json() raises ValueError). -/
structure HttpResponse where
  status : Nat
  headers : List (String × String)
  body : Option Json

/-- One network interaction of the loop: a response, or a transport
failure raised by session.get. -/
inductive NetEvent where
  | ok (resp : HttpResponse)
  | timeout
  | connError

/-- Embedding of resp.headers.get(k): requests header lookup is
case-insensitive on the header name. -/
def headerGet (hs : List (String × String)) (k : String) : Option String :=
  (hs.find? (fun p => pyLower p.1 == pyLower k)).map Prod.snd

def contentTypeVal (hs : List (String × String)) : String :=
  (headerGet hs "Content-Type").getD ""

def listContainsSub : List Char → List Char → Bool
  | [], needle => needle.isEmpty
  | c :: t, needle => needle.isPrefixOf (c :: t) || listContainsSub t needle

/-- Embedding of the Python substring test (needle in hay). -/
def strContainsSub (hay needle : String) : Bool := listContainsSub hay.data needle.data

/-- The content-type test at source line 66:
"application/json" in ctype.lower(). -/
def contentTypeOk (hs : List (String × String)) : Bool :=
  strContainsSub (pyLower (contentTypeVal hs)) "application/json"

/-- Embedding of dict.get(k) on a parsed JSON object: the value of the
last binding of the key (Python dicts keep the last duplicate key when
parsing JSON), or None (null) when the key is absent. -/
def pyGet (fields : List (String × Json)) (k : String) : Json :=
  match fields.reverse.find? (fun p => p.1 == k) with
  | some p => p.2
  | none => Json.null

/-- The record built for one repository at source lines 76-83: exactly
six fields, stars drawn from stargazers_count, the rest from the
same-named API field, each via dict.get. -/
def data_of (repo : List (String × Json)) : Json :=
  Json.obj [("name", pyGet repo "name"), ("description", pyGet repo "description"),
    ("stars", pyGet repo "stargazers_count"), ("language", pyGet repo "language"),
    ("created_at", pyGet repo "created_at"), ("updated_at", pyGet repo "updated_at")]

/-- The for-loop over a page (source lines 75-84).  Every item must be a
JSON object for repo.get to exist; any other item raises AttributeError
or TypeError, which the generic handler turns into a failed fetch. -/
def buildRecords : List Json → Option (List Json)
  | [] => some []
  | Json.obj fields :: rest =>
    match buildRecords rest with
    | some rs => some (data_of fields :: rs)
    | none => none
  | _ => none

/-- Python truthiness of a JSON value, as tested by (if not items). -/
def pyTruthy : Json → Bool
  | .null => false
  | .bool b => b
  | .int n => decide (n ≠ 0)
  | .str s => !s.isEmpty
  | .arr l => !l.isEmpty
  | .obj l => !l.isEmpty

/-- The message printed on HTTP 403 (source lines 54-60): the formatted
reset time when the header holds a truthy value that int() accepts, the
ValueError text when int() rejects it, and the no-reset-time message when
the header is absent or empty. -/
def rateLimitMsg (hs : List (String × String)) : String :=
  match headerGet hs "X-RateLimit-Reset" with
  | some s =>
    if s ≠ "" then
      match pyInt s with
      | some ts => "Rate limit exceeded. It will reset at: " ++ convert_reset_to_ist ts
      | none => "invalid literal for int() with base 10: '" ++ s ++ "'"
    else "Rate limit exceeded. No reset time provided."
  | none => "Rate limit exceeded. No reset time provided."

/-- Message printed when raise_for_status raises; the exact HTTPError
text is requests-internal and is modelled schematically. -/
def httpErrorMsg (status : Nat) : String := "HTTP error status " ++ toString status

/-- Message printed when iterating a truthy non-list page body or calling
get on a non-dict item; the exact exception text is modelled
schematically. -/
def typeErrorMsg : String := "page item is not an object"

/-- The query parameters of the request for one page (source lines
44-50). -/
def requestParams (page : Nat) : List (String × String) :=
  [("type", "owner"), ("sort", "updated"), ("direction", "desc"), ("per_page", "30"),
    ("page", toString page)]

/-- Observable outcome of one fetcher call: the returned value (none for
the failure signal), the lines printed, and the query parameters of the
page requests issued, in order. -/
structure FetchTrace where
  result : Option (List Json)
  printed : List String
  requests : List (List (String × String))

/-- The while-loop of fetcher (source lines 43-93) over a script of
network events, one per page request; running past the script is modelled
as a connection failure. -/
def fetcher_go : List NetEvent → Nat → List Json → List (List (String × String)) → FetchTrace
  | [], page, _, reqs => ⟨none, ["Connection error"], reqs ++ [requestParams page]⟩
  | NetEvent.timeout :: _, page, _, reqs =>
      ⟨none, ["Request timed out."], reqs ++ [requestParams page]⟩
  | NetEvent.connError :: _, page, _, reqs =>
      ⟨none, ["Connection error"], reqs ++ [requestParams page]⟩
  | NetEvent.ok r :: rest, page, acc, reqs =>
    if r.status = 403 then ⟨none, [rateLimitMsg r.headers], reqs ++ [requestParams page]⟩
    else if 400 ≤ r.status ∧ r.status < 600 then
      ⟨none, [httpErrorMsg r.status], reqs ++ [requestParams page]⟩
    else if contentTypeOk r.headers then
      match r.body with
      | none => ⟨none, ["Invalid JSON"], reqs ++ [requestParams page]⟩
      | some items =>
        if pyTruthy items then
          match items with
          | Json.arr l =>
            match buildRecords l with
            | some recs =>
              if l.length < 30 then ⟨some (acc ++ recs), [], reqs ++ [requestParams page]⟩
              else fetcher_go rest (page + 1) (acc ++ recs) (reqs ++ [requestParams page])
            | none => ⟨none, [typeErrorMsg], reqs ++ [requestParams page]⟩
          | _ => ⟨none, [typeErrorMsg], reqs ++ [requestParams page]⟩
        else ⟨some acc, [], reqs ++ [requestParams page]⟩
    else ⟨none, ["Not JSON"], reqs ++ [requestParams page]⟩

/-- Embedding of fetcher(username): pages are requested from page 1. -/
def fetcher (events : List NetEvent) : FetchTrace := fetcher_go events 1 [] []

/-- A well-formed page response: status 200, JSON content type, and a
body that is an array of repository objects. -/
def okArrayPage (repos : List (List (String × Json))) : NetEvent :=
  NetEvent.ok ⟨200, [("Content-Type", "application/json")], some (Json.arr (repos.map Json.obj))⟩

/-! ## Writer and entry point (source lines 110-146) -/

/-- Embedding of write_file(repos, output_file): the file effect is
modelled as the written path and text; none means no file operation at
all.  An empty list and None are both falsy, so nothing is written for
them; otherwise json.dump(repos, f, indent=4) writes
json.dumps(repos, indent=4) to the path, opened with UTF-8 encoding. -/
def write_file (repos : Option (List Json)) (output_file : String) : Option (String × String) :=
  match repos with
  | some (x :: xs) => some (output_file, json_dumps (Json.arr (x :: xs)))
  | _ => none

/-- Embedding of the non-interactive branch of main (source lines
132-146): a truthy fetch result is written and the process ends with
exit code 0; a None result or an empty list ends with exit code 1 and no
write. -/
def main_cli (repos : Option (List Json)) (output : String) : Option (String × String) × Nat :=
  match repos with
  | some (x :: xs) => (write_file (some (x :: xs)) output, 0)
  | some [] => (none, 1)
  | none => (none, 1)

/-- The non-interactive pipeline: fetch, then write or exit. -/
def run_cli (events : List NetEvent) (output : String) : Option (String × String) × Nat :=
  main_cli (fetcher events).result output

/-- The sentinel test of the interactive loop (source line 154):
username.lower().strip() == "exit". -/
def exit_check (s : String) : Bool := pyStrip (pyLower s) == "exit"

/-- The inputs the interactive loop (source lines 151-157) treats as
account names: everything before the first sentinel input. -/
def interactive_names : List String → List String
  | [] => []
  | s :: rest => if exit_check s then [] else s :: interactive_names rest

/-! ## The retry configuration (source lines 31-38) -/

/-- The urllib3 Retry configuration constructed by the source, with the
float backoff factor embedded as a rational. -/
structure RetryConfig where
  total : Nat
  backoff_factor : ℚ
  status_forcelist : List Nat
  allowed_methods : List String
  raise_on_status : Bool
  respect_retry_after_header : Bool

/-- The retry strategy mounted on the session (source lines 31-38). -/
def retry_strategy : RetryConfig :=
  ⟨3, 1 / 2, [429, 500, 502, 503, 504], ["GET"], false, true⟩

/-- A response is retried only when the request method is allowed and the
status is in the forcelist. -/
def retryable (cfg : RetryConfig) (method : String) (status : Nat) : Bool :=
  cfg.allowed_methods.contains method && cfg.status_forcelist.contains status

/-- Modelled from the spec: the urllib3 retry execution is not part of
the repository, so the bounded automatic retry the spec describes is
modelled here.  Given the statuses the server would answer with, count
the attempts one request makes: each attempt consumes one permitted
attempt, and a further attempt follows only for a retryable status while
the total bound is not exhausted. -/
def retryGo (cfg : RetryConfig) (method : String) : List Nat → Nat → Nat
  | [], _ => 0
  | _ :: _, 0 => 0
  | s :: rest, fuel + 1 =>
    if retryable cfg method s then
      (if fuel = 0 then 1 else 1 + retryGo cfg method rest fuel)
    else 1

/-- Modelled from the spec: attempts made for one request under the
configured total bound. -/
def attemptsMade (cfg : RetryConfig) (method : String) (statuses : List Nat) : Nat :=
  retryGo cfg method statuses cfg.total

/-- Modelled from the spec: exponential backoff before the k-th retry,
base the configured backoff factor. -/
def backoffDelay (cfg : RetryConfig) (k : Nat) : ℚ := cfg.backoff_factor * 2 ^ (k - 1)

/-- Modelled from the spec: the delay actually waited honors a
server-provided Retry-After when the configuration respects it. -/
def retryDelay (cfg : RetryConfig) (k : Nat) (retryAfter : Option ℚ) : ℚ :=
  match retryAfter with
  | some t => if cfg.respect_retry_after_header then max (backoffDelay cfg k) t else backoffDelay cfg k
  | none => backoffDelay cfg k

/-! ## Supporting lemmas: characters -/

theorem char_toNat_ofNat (n : Nat) (h : n.isValidChar) : (Char.ofNat n).toNat = n := by
  unfold Char.ofNat
  rw [dif_pos h]
  unfold Char.toNat Char.ofNatAux
  simp [UInt32.toNat, UInt32.ofNatCore, BitVec.toNat_ofNatLt]

theorem char_eq_of_toNat (a b : Char) (h : a.toNat = b.toNat) : a = b := by
  apply Char.ext
  apply UInt32.ext
  exact h

theorem char_toNat_lt (c : Char) : c.toNat < 1114112 := by
  rcases c.valid with h | ⟨_, h2⟩
  · exact Nat.lt_trans h (by decide)
  · exact h2

theorem char_not_surrogate (c : Char) : c.toNat < 55296 ∨ 57344 ≤ c.toNat := by
  rcases c.valid with h | ⟨h1, _⟩
  · exact Or.inl h
  · exact Or.inr h1

theorem char_eq_iff_toNat (a b : Char) : a = b ↔ a.toNat = b.toNat := by
  constructor
  · intro h
    rw [h]
  · exact char_eq_of_toNat a b

/-! ## Supporting lemmas: whitespace skipping -/

theorem skipWs_append (ws cs : List Char) (h : ∀ c ∈ ws, isWsCh c = true) :
    skipWs (ws ++ cs) = skipWs cs := by
  induction ws with
  | nil => rfl
  | cons x xs ih =>
    simp only [skipWs, List.cons_append, List.dropWhile, h x (by simp)]
    exact ih (fun c hc => h c (by simp [hc]))

theorem skipWs_cons_neg (c : Char) (cs : List Char) (h : isWsCh c = false) :
    skipWs (c :: cs) = c :: cs := by
  simp [skipWs, List.dropWhile, h]

theorem newlineInd_ws (lvl : Nat) : ∀ c ∈ newlineInd lvl, isWsCh c = true := by
  intro c hc
  simp only [newlineInd, indentChars, List.mem_cons, List.mem_replicate] at hc
  rcases hc with h | ⟨_, h⟩ <;> simp [h, isWsCh]

theorem skipWs_newlineInd (lvl : Nat) (cs : List Char) :
    skipWs (newlineInd lvl ++ cs) = skipWs cs :=
  skipWs_append _ _ (newlineInd_ws lvl)

theorem skipWs_append_all (ws : List Char) (h : ∀ c ∈ ws, isWsCh c = true) :
    ∀ cs, skipWs (ws ++ cs) = skipWs cs :=
  fun cs => skipWs_append ws cs h

theorem skipWs_cons_all (c : Char) (h : isWsCh c = false) :
    ∀ cs, skipWs (c :: cs) = c :: cs :=
  fun cs => skipWs_cons_neg c cs h

/-! ## Supporting lemmas: decimal digits -/

theorem digitCh_toNat (k : Nat) (h : k < 10) : (digitCh k).toNat = 48 + k :=
  char_toNat_ofNat (48 + k) (Or.inl (by omega))

theorem char_le_iff_toNat (a b : Char) : a ≤ b ↔ a.toNat ≤ b.toNat := by
  rw [Char.le_def]
  exact UInt32.le_def.trans (by rfl)

theorem isDigitCh_digitCh (k : Nat) (h : k < 10) : isDigitCh (digitCh k) = true := by
  simp only [isDigitCh, Bool.and_eq_true, decide_eq_true_eq, char_le_iff_toNat]
  rw [digitCh_toNat k h]
  constructor
  · show Char.toNat '0' ≤ 48 + k
    have : Char.toNat '0' = 48 := by decide
    omega
  · show 48 + k ≤ Char.toNat '9'
    have : Char.toNat '9' = 57 := by decide
    omega

theorem digitVal_digitCh (k : Nat) (h : k < 10) : digitVal (digitCh k) = k := by
  simp [digitVal, digitCh_toNat k h]

theorem natToDigits_all_digits (n : Nat) : ∀ c ∈ natToDigits n, isDigitCh c = true := by
  induction n using Nat.strong_induction_on with
  | _ n ih =>
    intro c hc
    rw [natToDigits] at hc
    by_cases h : n < 10
    · rw [dif_pos h] at hc
      simp only [List.mem_singleton] at hc
      exact hc ▸ isDigitCh_digitCh n h
    · rw [dif_neg h] at hc
      simp only [List.mem_append, List.mem_singleton] at hc
      rcases hc with hc | hc
      · exact ih (n / 10) (Nat.div_lt_self (by omega) (by omega)) c hc
      · exact hc ▸ isDigitCh_digitCh (n % 10) (Nat.mod_lt n (by omega))

theorem natToDigits_ne_nil (n : Nat) : natToDigits n ≠ [] := by
  rw [natToDigits]
  by_cases h : n < 10
  · rw [dif_pos h]
    simp
  · rw [dif_neg h]
    simp

theorem natToDigits_foldl (n : Nat) : ∀ acc : Nat,
    (natToDigits n).foldl (fun acc c => 10 * acc + digitVal c) acc =
      acc * 10 ^ (natToDigits n).length + n := by
  induction n using Nat.strong_induction_on with
  | _ n ih =>
    intro acc
    rw [natToDigits]
    by_cases h : n < 10
    · rw [dif_pos h]
      simp [digitVal_digitCh n h]
      omega
    · rw [dif_neg h]
      rw [List.foldl_append]
      rw [ih (n / 10) (Nat.div_lt_self (by omega) (by omega)) acc]
      simp only [List.foldl_cons, List.foldl_nil, List.length_append, List.length_singleton]
      rw [digitVal_digitCh (n % 10) (Nat.mod_lt n (by omega))]
      rw [pow_succ]
      have : 10 * (n / 10) + n % 10 = n := Nat.div_add_mod n 10
      ring_nf
      omega

theorem digitsToNat_natToDigits (n : Nat) : digitsToNat (natToDigits n) = n := by
  have := natToDigits_foldl n 0
  simpa [digitsToNat] using this

/-- True when the list does not begin with a decimal digit, the condition
under which a maximal digit run ends exactly at the list. -/
def headNotDigit : List Char → Bool
  | [] => true
  | c :: _ => !isDigitCh c

theorem takeWhile_digits_append (ds r : List Char) (hd : ∀ c ∈ ds, isDigitCh c = true)
    (hr : headNotDigit r = true) :
    (ds ++ r).takeWhile isDigitCh = ds ∧ (ds ++ r).dropWhile isDigitCh = r := by
  induction ds with
  | nil =>
    cases r with
    | nil => exact ⟨rfl, rfl⟩
    | cons c t =>
      simp only [headNotDigit, Bool.not_eq_true'] at hr
      simp [List.takeWhile, List.dropWhile, hr]
  | cons d ds ih =>
    have hd1 : isDigitCh d = true := hd d (by simp)
    have := ih (fun c hc => hd c (by simp [hc]))
    simp [List.takeWhile, List.dropWhile, hd1, this.1, this.2]

theorem hexDig_toNat (k : Nat) (h : k < 16) :
    (hexDig k).toNat = if k < 10 then 48 + k else 87 + k := by
  unfold hexDig
  by_cases h10 : k < 10
  · rw [if_pos h10, if_pos h10]
    exact char_toNat_ofNat _ (Or.inl (by omega))
  · rw [if_neg h10, if_neg h10]
    exact char_toNat_ofNat _ (Or.inl (by omega))

theorem hexVal_hexDig (k : Nat) (h : k < 16) : hexVal (hexDig k) = some k := by
  interval_cases k <;> decide

theorem hex4_hex4chars (n : Nat) (h : n < 65536) :
    hex4 (hexDig (n / 4096 % 16)) (hexDig (n / 256 % 16)) (hexDig (n / 16 % 16))
      (hexDig (n % 16)) = some n := by
  rw [hex4, hexVal_hexDig _ (by omega), hexVal_hexDig _ (by omega), hexVal_hexDig _ (by omega),
    hexVal_hexDig _ (by omega)]
  simp only [Option.some.injEq]
  omega

/-! ## String escaping round trip -/

theorem parseStringBody_backslash (X : List Char) :
    parseStringBody ('\\' :: X) = parseEscape X := by
  rw [parseStringBody.eq_def]
  simp

theorem parse_two_char_escape (c e : Char) (he : simpleUnescape e = some c)
    (hne : ¬e = 'u') (tail res rest : List Char)
    (hp : parseStringBody tail = some (res, rest)) :
    parseStringBody ('\\' :: e :: tail) = some (c :: res, rest) := by
  rw [parseStringBody_backslash, parseEscape.eq_def]
  simp [hne, he, hp]

theorem parseEscape_u_one (a b c d : Char) (n : Nat) (tail res rest : List Char)
    (hx : hex4 a b c d = some n) (hn1 : ¬(55296 ≤ n ∧ n < 56320))
    (hn2 : ¬(56320 ≤ n ∧ n < 57344))
    (hp : parseStringBody tail = some (res, rest)) :
    parseEscape ('u' :: a :: b :: c :: d :: tail) = some (Char.ofNat n :: res, rest) := by
  rw [parseEscape.eq_def]
  simp [hx, hn1, hn2, hp]

theorem parseEscape_u_pair (a b c d a2 b2 c2 d2 : Char) (n m : Nat)
    (tail res rest : List Char)
    (hx1 : hex4 a b c d = some n) (hn : 55296 ≤ n ∧ n < 56320)
    (hx2 : hex4 a2 b2 c2 d2 = some m) (hm : 56320 ≤ m ∧ m < 57344)
    (hp : parseStringBody tail = some (res, rest)) :
    parseEscape ('u' :: a :: b :: c :: d :: '\\' :: 'u' :: a2 :: b2 :: c2 :: d2 :: tail) =
      some (Char.ofNat (65536 + (n - 55296) * 1024 + (m - 56320)) :: res, rest) := by
  rw [parseEscape.eq_def]
  simp [hx1, hn.1, hn.2, hx2, hm.1, hm.2, hp]

theorem parse_u_single (c : Char) (h9 : c.toNat < 65536) (tail res rest : List Char)
    (hp : parseStringBody tail = some (res, rest)) :
    parseStringBody (('\\' :: 'u' :: hex4chars c.toNat) ++ tail) = some (c :: res, rest) := by
  have hns1 : ¬(55296 ≤ c.toNat ∧ c.toNat < 56320) := by
    rcases char_not_surrogate c with h | h <;> omega
  have hns2 : ¬(56320 ≤ c.toNat ∧ c.toNat < 57344) := by
    rcases char_not_surrogate c with h | h <;> omega
  have shape : ('\\' :: 'u' :: hex4chars c.toNat) ++ tail =
      '\\' :: 'u' :: hexDig (c.toNat / 4096 % 16) :: hexDig (c.toNat / 256 % 16) ::
        hexDig (c.toNat / 16 % 16) :: hexDig (c.toNat % 16) :: tail := by
    simp [hex4chars]
  rw [shape, parseStringBody_backslash,
    parseEscape_u_one _ _ _ _ c.toNat tail res rest (hex4_hex4chars c.toNat h9) hns1 hns2 hp,
    Char.ofNat_toNat]

theorem parse_u_pair (c : Char) (h9 : 65536 ≤ c.toNat) (tail res rest : List Char)
    (hp : parseStringBody tail = some (res, rest)) :
    parseStringBody ((('\\' :: 'u' :: hex4chars (55296 + (c.toNat - 65536) / 1024)) ++
        ('\\' :: 'u' :: hex4chars (56320 + (c.toNat - 65536) % 1024))) ++ tail) =
      some (c :: res, rest) := by
  have hlt := char_toNat_lt c
  have hc1 : 55296 ≤ 55296 + (c.toNat - 65536) / 1024 ∧
      55296 + (c.toNat - 65536) / 1024 < 56320 := by
    constructor <;> omega
  have hc2 : 56320 ≤ 56320 + (c.toNat - 65536) % 1024 ∧
      56320 + (c.toNat - 65536) % 1024 < 57344 := by
    constructor <;> omega
  have shape : (('\\' :: 'u' :: hex4chars (55296 + (c.toNat - 65536) / 1024)) ++
        ('\\' :: 'u' :: hex4chars (56320 + (c.toNat - 65536) % 1024))) ++ tail =
      '\\' :: 'u' :: hexDig ((55296 + (c.toNat - 65536) / 1024) / 4096 % 16) ::
        hexDig ((55296 + (c.toNat - 65536) / 1024) / 256 % 16) ::
        hexDig ((55296 + (c.toNat - 65536) / 1024) / 16 % 16) ::
        hexDig ((55296 + (c.toNat - 65536) / 1024) % 16) ::
        '\\' :: 'u' :: hexDig ((56320 + (c.toNat - 65536) % 1024) / 4096 % 16) ::
        hexDig ((56320 + (c.toNat - 65536) % 1024) / 256 % 16) ::
        hexDig ((56320 + (c.toNat - 65536) % 1024) / 16 % 16) ::
        hexDig ((56320 + (c.toNat - 65536) % 1024) % 16) :: tail := by
    simp [hex4chars]
  rw [shape, parseStringBody_backslash,
    parseEscape_u_pair _ _ _ _ _ _ _ _ (55296 + (c.toNat - 65536) / 1024)
      (56320 + (c.toNat - 65536) % 1024) tail res rest
      (hex4_hex4chars _ (by omega)) hc1 (hex4_hex4chars _ (by omega)) hc2 hp]
  have harg : 65536 + (55296 + (c.toNat - 65536) / 1024 - 55296) * 1024 +
      (56320 + (c.toNat - 65536) % 1024 - 56320) = c.toNat := by
    omega
  rw [harg, Char.ofNat_toNat]

theorem parse_raw_char (c : Char) (h1 : ¬c = '"') (h2 : ¬c = '\\')
    (tail res rest : List Char) (hp : parseStringBody tail = some (res, rest)) :
    parseStringBody (c :: tail) = some (c :: res, rest) := by
  rw [parseStringBody.eq_def]
  simp [h1, h2, hp]

theorem parseStringBody_escChars (s : List Char) : ∀ rest : List Char,
    parseStringBody (escChars s ++ ('"' :: rest)) = some (s, rest) := by
  induction s with
  | nil =>
    intro rest
    simp [escChars, parseStringBody]
  | cons c cs ih =>
    intro rest
    have step : escChars (c :: cs) ++ ('"' :: rest) =
        escapeChar c ++ (escChars cs ++ ('"' :: rest)) := by
      simp [escChars]
    rw [step]
    by_cases h1 : c = '"'
    · rw [show escapeChar c = ['\\', '"'] from by rw [h1]; rfl]
      rw [h1]
      exact parse_two_char_escape _ _ (by decide) (by decide) _ _ _ (ih rest)
    by_cases h2 : c = '\\'
    · rw [show escapeChar c = ['\\', '\\'] from by rw [h2]; rfl]
      rw [h2]
      exact parse_two_char_escape _ _ (by decide) (by decide) _ _ _ (ih rest)
    by_cases h3 : c = '\x08'
    · rw [show escapeChar c = ['\\', 'b'] from by rw [h3]; rfl]
      rw [h3]
      exact parse_two_char_escape _ _ (by decide) (by decide) _ _ _ (ih rest)
    by_cases h4 : c = '\x0c'
    · rw [show escapeChar c = ['\\', 'f'] from by rw [h4]; rfl]
      rw [h4]
      exact parse_two_char_escape _ _ (by decide) (by decide) _ _ _ (ih rest)
    by_cases h5 : c = '\n'
    · rw [show escapeChar c = ['\\', 'n'] from by rw [h5]; rfl]
      rw [h5]
      exact parse_two_char_escape _ _ (by decide) (by decide) _ _ _ (ih rest)
    by_cases h6 : c = '\r'
    · rw [show escapeChar c = ['\\', 'r'] from by rw [h6]; rfl]
      rw [h6]
      exact parse_two_char_escape _ _ (by decide) (by decide) _ _ _ (ih rest)
    by_cases h7 : c = '\t'
    · rw [show escapeChar c = ['\\', 't'] from by rw [h7]; rfl]
      rw [h7]
      exact parse_two_char_escape _ _ (by decide) (by decide) _ _ _ (ih rest)
    by_cases h8 : c.toNat < 32 ∨ 127 ≤ c.toNat
    · by_cases h9 : c.toNat < 65536
      · rw [show escapeChar c = '\\' :: 'u' :: hex4chars c.toNat from by
          rw [escapeChar, if_neg h1, if_neg h2, if_neg h3, if_neg h4, if_neg h5, if_neg h6,
            if_neg h7, if_pos h8, if_pos h9]]
        exact parse_u_single c h9 _ _ _ (ih rest)
      · rw [show escapeChar c =
            ('\\' :: 'u' :: hex4chars (55296 + (c.toNat - 65536) / 1024)) ++
            ('\\' :: 'u' :: hex4chars (56320 + (c.toNat - 65536) % 1024)) from by
          rw [escapeChar, if_neg h1, if_neg h2, if_neg h3, if_neg h4, if_neg h5, if_neg h6,
            if_neg h7, if_pos h8, if_neg h9]]
        exact parse_u_pair c (by omega) _ _ _ (ih rest)
    · rw [show escapeChar c = [c] from by
        rw [escapeChar, if_neg h1, if_neg h2, if_neg h3, if_neg h4, if_neg h5, if_neg h6,
          if_neg h7, if_neg h8]]
      exact parse_raw_char c h1 h2 _ _ _ (ih rest)

/-! ## Supporting lemmas: digit classification -/

theorem jsize_pos (v : Json) : 1 ≤ jsize v := by
  cases v <;> simp [jsize]

theorem isDigitCh_ne (c d : Char) (h : isDigitCh c = true) (hd : isDigitCh d = false) :
    ¬c = d := by
  intro he
  rw [he, hd] at h
  cases h

theorem isDigitCh_not_ws (c : Char) (h : isDigitCh c = true) : isWsCh c = false := by
  by_contra hc
  have hw : isWsCh c = true := by revert hc; cases isWsCh c <;> simp
  simp only [isWsCh, Bool.or_eq_true, beq_iff_eq] at hw
  rcases hw with ((rfl | rfl) | rfl) | rfl <;> exact absurd h (by decide)

/-! ## Supporting lemmas: parser steps -/

theorem parseVal_ws (f : Nat) (ws cs : List Char) (h : ∀ c ∈ ws, isWsCh c = true) :
    parseVal f (ws ++ cs) = parseVal f cs := by
  cases f with
  | zero => rfl
  | succ f =>
    rw [parseVal.eq_def]
    conv_rhs => rw [parseVal.eq_def]
    simp [skipWs_append ws cs h]

theorem parseVal_null (f : Nat) (rest : List Char) :
    parseVal (f + 1) ('n' :: 'u' :: 'l' :: 'l' :: rest) = some (.null, rest) := by
  rw [parseVal.eq_def]
  simp [skipWs, List.dropWhile, isWsCh]

theorem parseVal_true (f : Nat) (rest : List Char) :
    parseVal (f + 1) ('t' :: 'r' :: 'u' :: 'e' :: rest) = some (.bool true, rest) := by
  rw [parseVal.eq_def]
  simp [skipWs, List.dropWhile, isWsCh]

theorem parseVal_false (f : Nat) (rest : List Char) :
    parseVal (f + 1) ('f' :: 'a' :: 'l' :: 's' :: 'e' :: rest) = some (.bool false, rest) := by
  rw [parseVal.eq_def]
  simp [skipWs, List.dropWhile, isWsCh]

theorem parseVal_quote (f : Nat) (X sd r : List Char)
    (h : parseStringBody X = some (sd, r)) :
    parseVal (f + 1) ('"' :: X) = some (.str (String.mk sd), r) := by
  rw [parseVal.eq_def]
  simp [skipWs, List.dropWhile, isWsCh, h]

theorem parseVal_digits (f : Nat) (d : Char) (ds rest : List Char)
    (hd : ∀ c ∈ d :: ds, isDigitCh c = true) (hr : headNotDigit rest = true) :
    parseVal (f + 1) ((d :: ds) ++ rest) = some (.int (digitsToNat (d :: ds)), rest) := by
  have hd1 : isDigitCh d = true := hd d (by simp)
  have htd := takeWhile_digits_append ds rest (fun c hc => hd c (by simp [hc])) hr
  rw [parseVal.eq_def]
  simp only [List.cons_append]
  rw [skipWs_cons_neg _ _ (isDigitCh_not_ws d hd1)]
  simp only [isDigitCh_ne d 'n' hd1 (by decide), isDigitCh_ne d 't' hd1 (by decide),
    isDigitCh_ne d 'f' hd1 (by decide), isDigitCh_ne d '"' hd1 (by decide),
    isDigitCh_ne d '[' hd1 (by decide), isDigitCh_ne d '\x7b' hd1 (by decide),
    isDigitCh_ne d '-' hd1 (by decide), reduceIte, if_false, ite_false]
  rw [show d :: (ds ++ rest) = (d :: ds) ++ rest from rfl]
  simp [hd1, htd.1, htd.2]

theorem parseVal_neg_digits (f : Nat) (d : Char) (ds rest : List Char)
    (hd : ∀ c ∈ d :: ds, isDigitCh c = true) (hr : headNotDigit rest = true) :
    parseVal (f + 1) ('-' :: ((d :: ds) ++ rest)) =
      some (.int (-(digitsToNat (d :: ds) : Int)), rest) := by
  have hd1 : isDigitCh d = true := hd d (by simp)
  have htd := takeWhile_digits_append ds rest (fun c hc => hd c (by simp [hc])) hr
  rw [parseVal.eq_def]
  simp only [List.cons_append]
  simp only [skipWs_cons_neg _ _ (show isWsCh '-' = false from by decide), Char.reduceEq,
    reduceIte, if_false, ite_false]
  rw [show d :: (ds ++ rest) = (d :: ds) ++ rest from rfl]
  simp [hd1, htd.1, htd.2]

theorem parseVal_arr_nil (f : Nat) (rest : List Char) :
    parseVal (f + 1) ('[' :: ']' :: rest) = some (.arr [], rest) := by
  rw [parseVal.eq_def]
  simp [skipWs, List.dropWhile, isWsCh]

theorem parseVal_arr_cons (f : Nat) (ws r1 rest : List Char) (c2 : Char) (cs2 : List Char)
    (x : Json) (xs : List Json)
    (hws : ∀ a ∈ ws, isWsCh a = true) (hc2 : isWsCh c2 = false) (hne : ¬c2 = ']')
    (h1 : parseVal f (c2 :: cs2) = some (x, r1))
    (h2 : parseElems f r1 = some (xs, rest)) :
    parseVal (f + 1) ('[' :: (ws ++ (c2 :: cs2))) = some (.arr (x :: xs), rest) := by
  rw [parseVal.eq_def]
  have hskip : skipWs (ws ++ (c2 :: cs2)) = c2 :: cs2 := by
    rw [skipWs_append _ _ hws, skipWs_cons_neg _ _ hc2]
  simp [skipWs_cons_neg _ _ (show isWsCh '[' = false from by decide), hskip, hne, h1, h2]

theorem parseVal_obj_nil (f : Nat) (rest : List Char) :
    parseVal (f + 1) ('\x7b' :: '\x7d' :: rest) = some (.obj [], rest) := by
  rw [parseVal.eq_def]
  simp [skipWs, List.dropWhile, isWsCh]

theorem parseVal_obj_cons (f : Nat) (ws cs2 kd Z r2 r3 rest : List Char)
    (v : Json) (ms : List (String × Json))
    (hws : ∀ a ∈ ws, isWsCh a = true)
    (hkey : parseStringBody cs2 = some (kd, Z))
    (hZ : skipWs Z = ':' :: r2)
    (hv : parseVal f r2 = some (v, r3))
    (hms : parseMembers f r3 = some (ms, rest)) :
    parseVal (f + 1) ('\x7b' :: (ws ++ ('"' :: cs2))) =
      some (.obj ((String.mk kd, v) :: ms), rest) := by
  rw [parseVal.eq_def]
  have hskip : skipWs (ws ++ ('"' :: cs2)) = '"' :: cs2 := by
    rw [skipWs_append _ _ hws, skipWs_cons_neg _ _ (by decide)]
  simp [skipWs_cons_neg _ _ (show isWsCh '\x7b' = false from by decide), hskip, hkey, hZ,
    hv, hms]

theorem parseElems_close (f : Nat) (ws rest : List Char)
    (hws : ∀ a ∈ ws, isWsCh a = true) :
    parseElems (f + 1) (ws ++ (']' :: rest)) = some ([], rest) := by
  rw [parseElems.eq_def]
  simp [skipWs_append_all ws hws, skipWs_cons_all ']' (by decide)]

theorem parseElems_comma (f : Nat) (tail r1 rest : List Char) (x : Json) (xs : List Json)
    (h1 : parseVal f tail = some (x, r1))
    (h2 : parseElems f r1 = some (xs, rest)) :
    parseElems (f + 1) (',' :: tail) = some (x :: xs, rest) := by
  rw [parseElems.eq_def]
  simp [skipWs_cons_all ',' (by decide), h1, h2]

theorem parseMembers_close (f : Nat) (ws rest : List Char)
    (hws : ∀ a ∈ ws, isWsCh a = true) :
    parseMembers (f + 1) (ws ++ ('\x7d' :: rest)) = some ([], rest) := by
  rw [parseMembers.eq_def]
  simp [skipWs_append_all ws hws, skipWs_cons_all '\x7d' (by decide)]

theorem parseMembers_comma (f : Nat) (ws cs2 kd Z r2 r3 rest : List Char)
    (v : Json) (ms : List (String × Json))
    (hws : ∀ a ∈ ws, isWsCh a = true)
    (hkey : parseStringBody cs2 = some (kd, Z))
    (hZ : skipWs Z = ':' :: r2)
    (hv : parseVal f r2 = some (v, r3))
    (hms : parseMembers f r3 = some (ms, rest)) :
    parseMembers (f + 1) (',' :: (ws ++ ('"' :: cs2))) =
      some ((String.mk kd, v) :: ms, rest) := by
  rw [parseMembers.eq_def]
  have hskip : skipWs (ws ++ ('"' :: cs2)) = '"' :: cs2 := by
    rw [skipWs_append _ _ hws, skipWs_cons_neg _ _ (by decide)]
  simp [skipWs_cons_all ',' (by decide), hskip, hkey, hZ, hv, hms]

/-! ## Supporting lemmas: serializer shapes -/

theorem serInt_head (n : Int) :
    ∃ c t, serInt n = c :: t ∧ (isDigitCh c = true ∨ c = '-') := by
  unfold serInt
  by_cases h : n < 0
  · rw [if_pos h]
    exact ⟨'-', natToDigits n.natAbs, rfl, Or.inr rfl⟩
  · rw [if_neg h]
    obtain ⟨d, ds, hds⟩ := List.exists_cons_of_ne_nil (natToDigits_ne_nil n.natAbs)
    refine ⟨d, ds, hds, Or.inl (natToDigits_all_digits n.natAbs d ?_)⟩
    rw [hds]
    simp

theorem serVal_head_cons (lvl : Nat) (v : Json) :
    ∃ c t, serVal lvl v = c :: t ∧ isWsCh c = false ∧ ¬c = ']' := by
  cases v with
  | null => exact ⟨'n', _, by rw [serVal], by decide, by decide⟩
  | bool b =>
    cases b with
    | false => exact ⟨'f', _, by rw [serVal], by decide, by decide⟩
    | true => exact ⟨'t', _, by rw [serVal], by decide, by decide⟩
  | int n =>
    obtain ⟨c, t, hct, hc⟩ := serInt_head n
    refine ⟨c, t, by rw [serVal]; exact hct, ?_, ?_⟩
    · rcases hc with hd | rfl
      · exact isDigitCh_not_ws c hd
      · decide
    · rcases hc with hd | rfl
      · exact isDigitCh_ne c ']' hd (by decide)
      · decide
  | str s => exact ⟨'"', escChars s.data ++ ['"'], by rw [serVal]; rfl, by decide, by decide⟩
  | arr l =>
    cases l with
    | nil => exact ⟨'[', [']'], by rw [serVal], by decide, by decide⟩
    | cons x xs => exact ⟨'[', _, by rw [serVal], by decide, by decide⟩
  | obj l =>
    cases l with
    | nil => exact ⟨'\x7b', ['\x7d'], by rw [serVal], by decide, by decide⟩
    | cons p ms =>
      obtain ⟨k, v2⟩ := p
      exact ⟨'\x7b', _, by rw [serVal], by decide, by decide⟩

theorem headNotDigit_newlineInd (lvl : Nat) (rest : List Char) :
    headNotDigit (newlineInd lvl ++ rest) = true := rfl

theorem headNotDigit_serElems (lvl : Nat) (xs : List Json) (X : List Char)
    (hX : headNotDigit X = true) : headNotDigit (serElems lvl xs ++ X) = true := by
  cases xs with
  | nil =>
    rw [show serElems lvl [] = [] from by rw [serElems], List.nil_append]
    exact hX
  | cons x xs =>
    rw [show serElems lvl (x :: xs) =
      ',' :: (newlineInd lvl ++ serVal lvl x ++ serElems lvl xs) from by rw [serElems]]
    rfl

theorem headNotDigit_serMembers (lvl : Nat) (ms : List (String × Json)) (X : List Char)
    (hX : headNotDigit X = true) : headNotDigit (serMembers lvl ms ++ X) = true := by
  cases ms with
  | nil =>
    rw [show serMembers lvl [] = [] from by rw [serMembers], List.nil_append]
    exact hX
  | cons p ms =>
    obtain ⟨k, v⟩ := p
    rw [show serMembers lvl ((k, v) :: ms) = ',' :: (newlineInd lvl ++ serStr k ++
      ':' :: ' ' :: serVal lvl v ++ serMembers lvl ms) from by rw [serMembers]]
    rfl

/-! ## Round trip of the serializer through the parser -/

theorem parse_ser_int (f : Nat) (n : Int) (lvl : Nat) (rest : List Char)
    (hr : headNotDigit rest = true) :
    parseVal (f + 1) (serVal lvl (.int n) ++ rest) = some (.int n, rest) := by
  rw [show serVal lvl (.int n) = serInt n from by rw [serVal]]
  by_cases hn : n < 0
  · rw [show serInt n = '-' :: natToDigits n.natAbs from by rw [serInt, if_pos hn]]
    obtain ⟨d, ds, hds⟩ := List.exists_cons_of_ne_nil (natToDigits_ne_nil n.natAbs)
    rw [hds]
    rw [show (('-' :: (d :: ds)) ++ rest) = '-' :: ((d :: ds) ++ rest) from rfl]
    rw [parseVal_neg_digits f d ds rest
      (by rw [← hds]; exact natToDigits_all_digits n.natAbs) hr]
    rw [show digitsToNat (d :: ds) = n.natAbs from by
      rw [← hds]; exact digitsToNat_natToDigits n.natAbs]
    have hval : -((n.natAbs : Nat) : Int) = n := by omega
    rw [hval]
  · rw [show serInt n = natToDigits n.natAbs from by rw [serInt, if_neg hn]]
    obtain ⟨d, ds, hds⟩ := List.exists_cons_of_ne_nil (natToDigits_ne_nil n.natAbs)
    rw [hds]
    rw [parseVal_digits f d ds rest
      (by rw [← hds]; exact natToDigits_all_digits n.natAbs) hr]
    rw [show digitsToNat (d :: ds) = n.natAbs from by
      rw [← hds]; exact digitsToNat_natToDigits n.natAbs]
    have hval : ((n.natAbs : Nat) : Int) = n := by omega
    rw [hval]

theorem parse_ser_str (f : Nat) (s : String) (lvl : Nat) (rest : List Char) :
    parseVal (f + 1) (serVal lvl (.str s) ++ rest) = some (.str s, rest) := by
  rw [show serVal lvl (.str s) = serStr s from by rw [serVal]]
  rw [show serStr s ++ rest = '"' :: (escChars s.data ++ ('"' :: rest)) from by simp [serStr]]
  rw [parseVal_quote f _ s.data rest (parseStringBody_escChars s.data rest)]

theorem parse_ser_arr_cons (f : Nat)
    (ihP : ∀ v lvl rest, jsize v ≤ f → headNotDigit rest = true →
      parseVal f (serVal lvl v ++ rest) = some (v, rest))
    (ihQ : ∀ xs lvl rest, jsizeArr xs + 1 ≤ f →
      parseElems f (serElems (lvl + 1) xs ++ (newlineInd lvl ++ (']' :: rest))) =
        some (xs, rest))
    (x : Json) (xs : List Json) (lvl : Nat) (rest : List Char)
    (hs : jsize (.arr (x :: xs)) ≤ f + 1) (hr : headNotDigit rest = true) :
    parseVal (f + 1) (serVal lvl (.arr (x :: xs)) ++ rest) = some (.arr (x :: xs), rest) := by
  have hsz : 1 + (1 + jsize x + jsizeArr xs) ≤ f + 1 := by
    simpa [jsize, jsizeArr] using hs
  have hx1 := jsize_pos x
  rw [show serVal lvl (.arr (x :: xs)) = '[' :: (newlineInd (lvl + 1) ++ serVal (lvl + 1) x ++
    serElems (lvl + 1) xs ++ newlineInd lvl ++ [']']) from by rw [serVal]]
  rw [show ('[' :: (newlineInd (lvl + 1) ++ serVal (lvl + 1) x ++ serElems (lvl + 1) xs ++
      newlineInd lvl ++ [']'])) ++ rest =
    '[' :: (newlineInd (lvl + 1) ++ (serVal (lvl + 1) x ++ (serElems (lvl + 1) xs ++
      (newlineInd lvl ++ (']' :: rest))))) from by simp]
  obtain ⟨c2, t, hser, hwsc, hnec⟩ := serVal_head_cons (lvl + 1) x
  rw [hser]
  rw [show (c2 :: t) ++ (serElems (lvl + 1) xs ++ (newlineInd lvl ++ (']' :: rest))) =
    c2 :: (t ++ (serElems (lvl + 1) xs ++ (newlineInd lvl ++ (']' :: rest)))) from rfl]
  refine parseVal_arr_cons f (newlineInd (lvl + 1))
    (serElems (lvl + 1) xs ++ (newlineInd lvl ++ (']' :: rest))) rest c2
    (t ++ (serElems (lvl + 1) xs ++ (newlineInd lvl ++ (']' :: rest)))) x xs
    (newlineInd_ws _) hwsc hnec ?_ ?_
  · rw [show c2 :: (t ++ (serElems (lvl + 1) xs ++ (newlineInd lvl ++ (']' :: rest)))) =
      (c2 :: t) ++ (serElems (lvl + 1) xs ++ (newlineInd lvl ++ (']' :: rest))) from rfl]
    rw [← hser]
    exact ihP x (lvl + 1) _ (by omega)
      (headNotDigit_serElems (lvl + 1) xs _ (headNotDigit_newlineInd lvl (']' :: rest)))
  · exact ihQ xs lvl rest (by omega)

theorem parse_ser_obj_cons (f : Nat)
    (ihP : ∀ v lvl rest, jsize v ≤ f → headNotDigit rest = true →
      parseVal f (serVal lvl v ++ rest) = some (v, rest))
    (ihR : ∀ ms lvl rest, jsizeObj ms + 1 ≤ f →
      parseMembers f (serMembers (lvl + 1) ms ++ (newlineInd lvl ++ ('\x7d' :: rest))) =
        some (ms, rest))
    (k : String) (v : Json) (ms : List (String × Json)) (lvl : Nat) (rest : List Char)
    (hs : jsize (.obj ((k, v) :: ms)) ≤ f + 1) (hr : headNotDigit rest = true) :
    parseVal (f + 1) (serVal lvl (.obj ((k, v) :: ms)) ++ rest) =
      some (.obj ((k, v) :: ms), rest) := by
  have hsz : 1 + (1 + jsize v + jsizeObj ms) ≤ f + 1 := by
    simpa [jsize, jsizeObj] using hs
  have hv1 := jsize_pos v
  rw [show serVal lvl (.obj ((k, v) :: ms)) = '\x7b' :: (newlineInd (lvl + 1) ++ serStr k ++
    ':' :: ' ' :: serVal (lvl + 1) v ++ serMembers (lvl + 1) ms ++ newlineInd lvl ++ ['\x7d'])
    from by rw [serVal]]
  rw [show ('\x7b' :: (newlineInd (lvl + 1) ++ serStr k ++ ':' :: ' ' :: serVal (lvl + 1) v ++
      serMembers (lvl + 1) ms ++ newlineInd lvl ++ ['\x7d'])) ++ rest =
    '\x7b' :: (newlineInd (lvl + 1) ++ ('"' :: (escChars k.data ++ ('"' :: (':' :: ' ' ::
      (serVal (lvl + 1) v ++ (serMembers (lvl + 1) ms ++
        (newlineInd lvl ++ ('\x7d' :: rest))))))))) from by simp [serStr]]
  refine parseVal_obj_cons f (newlineInd (lvl + 1))
    (escChars k.data ++ ('"' :: (':' :: ' ' :: (serVal (lvl + 1) v ++ (serMembers (lvl + 1) ms ++
      (newlineInd lvl ++ ('\x7d' :: rest)))))))
    k.data
    (':' :: ' ' :: (serVal (lvl + 1) v ++ (serMembers (lvl + 1) ms ++
      (newlineInd lvl ++ ('\x7d' :: rest)))))
    (' ' :: (serVal (lvl + 1) v ++ (serMembers (lvl + 1) ms ++
      (newlineInd lvl ++ ('\x7d' :: rest)))))
    (serMembers (lvl + 1) ms ++ (newlineInd lvl ++ ('\x7d' :: rest)))
    rest v ms (newlineInd_ws _) (parseStringBody_escChars k.data _) ?_ ?_ ?_
  · exact skipWs_cons_neg _ _ (by decide)
  · rw [show (' ' :: (serVal (lvl + 1) v ++ (serMembers (lvl + 1) ms ++
      (newlineInd lvl ++ ('\x7d' :: rest))))) =
      [' '] ++ (serVal (lvl + 1) v ++ (serMembers (lvl + 1) ms ++
      (newlineInd lvl ++ ('\x7d' :: rest)))) from rfl]
    rw [parseVal_ws f [' '] _ (by decide)]
    exact ihP v (lvl + 1) _ (by omega)
      (headNotDigit_serMembers (lvl + 1) ms _ (headNotDigit_newlineInd lvl ('\x7d' :: rest)))
  · exact ihR ms lvl rest (by omega)

theorem parse_ser_all : ∀ fuel : Nat,
    (∀ v lvl rest, jsize v ≤ fuel → headNotDigit rest = true →
      parseVal fuel (serVal lvl v ++ rest) = some (v, rest)) ∧
    (∀ xs lvl rest, jsizeArr xs + 1 ≤ fuel →
      parseElems fuel (serElems (lvl + 1) xs ++ (newlineInd lvl ++ (']' :: rest))) =
        some (xs, rest)) ∧
    (∀ ms lvl rest, jsizeObj ms + 1 ≤ fuel →
      parseMembers fuel (serMembers (lvl + 1) ms ++ (newlineInd lvl ++ ('\x7d' :: rest))) =
        some (ms, rest)) := by
  intro fuel
  induction fuel with
  | zero =>
    refine ⟨?_, ?_, ?_⟩
    · intro v lvl rest hs _
      have := jsize_pos v
      omega
    · intro xs lvl rest hs
      omega
    · intro ms lvl rest hs
      omega
  | succ f ih =>
    obtain ⟨ihP, ihQ, ihR⟩ := ih
    refine ⟨?_, ?_, ?_⟩
    · intro v lvl rest hs hr
      cases v with
      | null =>
        rw [show serVal lvl .null = ['n', 'u', 'l', 'l'] from by rw [serVal]]
        exact parseVal_null f rest
      | bool b =>
        cases b with
        | true =>
          rw [show serVal lvl (.bool true) = ['t', 'r', 'u', 'e'] from by rw [serVal]]
          exact parseVal_true f rest
        | false =>
          rw [show serVal lvl (.bool false) = ['f', 'a', 'l', 's', 'e'] from by rw [serVal]]
          exact parseVal_false f rest
      | int n => exact parse_ser_int f n lvl rest hr
      | str s => exact parse_ser_str f s lvl rest
      | arr l =>
        cases l with
        | nil =>
          rw [show serVal lvl (.arr []) = ['[', ']'] from by rw [serVal]]
          exact parseVal_arr_nil f rest
        | cons x xs => exact parse_ser_arr_cons f ihP ihQ x xs lvl rest hs hr
      | obj l =>
        cases l with
        | nil =>
          rw [show serVal lvl (.obj []) = ['\x7b', '\x7d'] from by rw [serVal]]
          exact parseVal_obj_nil f rest
        | cons p ms =>
          obtain ⟨k, v⟩ := p
          exact parse_ser_obj_cons f ihP ihR k v ms lvl rest hs hr
    · intro xs lvl rest hq
      cases xs with
      | nil =>
        rw [show serElems (lvl + 1) [] = [] from by rw [serElems], List.nil_append]
        exact parseElems_close f (newlineInd lvl) rest (newlineInd_ws lvl)
      | cons x xs =>
        have hsz : 1 + jsize x + jsizeArr xs + 1 ≤ f + 1 := by
          simpa [jsizeArr] using hq
        have hx1 := jsize_pos x
        rw [show serElems (lvl + 1) (x :: xs) = ',' :: (newlineInd (lvl + 1) ++
          serVal (lvl + 1) x ++ serElems (lvl + 1) xs) from by rw [serElems]]
        rw [show (',' :: (newlineInd (lvl + 1) ++ serVal (lvl + 1) x ++
            serElems (lvl + 1) xs)) ++ (newlineInd lvl ++ (']' :: rest)) =
          ',' :: (newlineInd (lvl + 1) ++ (serVal (lvl + 1) x ++ (serElems (lvl + 1) xs ++
            (newlineInd lvl ++ (']' :: rest))))) from by simp]
        refine parseElems_comma f
          (newlineInd (lvl + 1) ++ (serVal (lvl + 1) x ++ (serElems (lvl + 1) xs ++
            (newlineInd lvl ++ (']' :: rest)))))
          (serElems (lvl + 1) xs ++ (newlineInd lvl ++ (']' :: rest))) rest x xs ?_ ?_
        · rw [parseVal_ws f (newlineInd (lvl + 1)) _ (newlineInd_ws _)]
          exact ihP x (lvl + 1) _ (by omega)
            (headNotDigit_serElems (lvl + 1) xs _ (headNotDigit_newlineInd lvl (']' :: rest)))
        · exact ihQ xs lvl rest (by omega)
    · intro ms lvl rest hq
      cases ms with
      | nil =>
        rw [show serMembers (lvl + 1) [] = [] from by rw [serMembers], List.nil_append]
        exact parseMembers_close f (newlineInd lvl) rest (newlineInd_ws lvl)
      | cons p ms =>
        obtain ⟨k, v⟩ := p
        have hsz : 1 + jsize v + jsizeObj ms + 1 ≤ f + 1 := by
          simpa [jsizeObj] using hq
        have hv1 := jsize_pos v
        rw [show serMembers (lvl + 1) ((k, v) :: ms) = ',' :: (newlineInd (lvl + 1) ++
          serStr k ++ ':' :: ' ' :: serVal (lvl + 1) v ++ serMembers (lvl + 1) ms) from by
          rw [serMembers]]
        rw [show (',' :: (newlineInd (lvl + 1) ++ serStr k ++ ':' :: ' ' ::
            serVal (lvl + 1) v ++ serMembers (lvl + 1) ms)) ++
            (newlineInd lvl ++ ('\x7d' :: rest)) =
          ',' :: (newlineInd (lvl + 1) ++ ('"' :: (escChars k.data ++ ('"' :: (':' :: ' ' ::
            (serVal (lvl + 1) v ++ (serMembers (lvl + 1) ms ++
              (newlineInd lvl ++ ('\x7d' :: rest))))))))) from by simp [serStr]]
        refine parseMembers_comma f (newlineInd (lvl + 1))
          (escChars k.data ++ ('"' :: (':' :: ' ' :: (serVal (lvl + 1) v ++
            (serMembers (lvl + 1) ms ++ (newlineInd lvl ++ ('\x7d' :: rest)))))))
          k.data
          (':' :: ' ' :: (serVal (lvl + 1) v ++ (serMembers (lvl + 1) ms ++
            (newlineInd lvl ++ ('\x7d' :: rest)))))
          (' ' :: (serVal (lvl + 1) v ++ (serMembers (lvl + 1) ms ++
            (newlineInd lvl ++ ('\x7d' :: rest)))))
          (serMembers (lvl + 1) ms ++ (newlineInd lvl ++ ('\x7d' :: rest)))
          rest v ms (newlineInd_ws _) (parseStringBody_escChars k.data _) ?_ ?_ ?_
        · exact skipWs_cons_neg _ _ (by decide)
        · rw [show (' ' :: (serVal (lvl + 1) v ++ (serMembers (lvl + 1) ms ++
            (newlineInd lvl ++ ('\x7d' :: rest))))) =
            [' '] ++ (serVal (lvl + 1) v ++ (serMembers (lvl + 1) ms ++
            (newlineInd lvl ++ ('\x7d' :: rest)))) from rfl]
          rw [parseVal_ws f [' '] _ (by decide)]
          exact ihP v (lvl + 1) _ (by omega)
            (headNotDigit_serMembers (lvl + 1) ms _
              (headNotDigit_newlineInd lvl ('\x7d' :: rest)))
        · exact ihR ms lvl rest (by omega)

theorem natToDigits_length_pos (n : Nat) : 1 ≤ (natToDigits n).length := by
  obtain ⟨d, ds, hds⟩ := List.exists_cons_of_ne_nil (natToDigits_ne_nil n)
  rw [hds]
  simp

mutual

theorem jsize_le_length (v : Json) : ∀ lvl, jsize v ≤ (serVal lvl v).length := by
  intro lvl
  cases v with
  | null =>
    rw [show serVal lvl .null = ['n', 'u', 'l', 'l'] from by rw [serVal]]
    simp [jsize]
  | bool b =>
    cases b with
    | true =>
      rw [show serVal lvl (.bool true) = ['t', 'r', 'u', 'e'] from by rw [serVal]]
      simp [jsize]
    | false =>
      rw [show serVal lvl (.bool false) = ['f', 'a', 'l', 's', 'e'] from by rw [serVal]]
      simp [jsize]
  | int n =>
    rw [show serVal lvl (.int n) = serInt n from by rw [serVal]]
    have := natToDigits_length_pos n.natAbs
    unfold serInt
    by_cases hn : n < 0
    · rw [if_pos hn]
      simp [jsize]
      try omega
    · rw [if_neg hn]
      simp [jsize]
      try omega
  | str s =>
    rw [show serVal lvl (.str s) = serStr s from by rw [serVal]]
    simp [jsize, serStr]
  | arr l =>
    cases l with
    | nil =>
      rw [show serVal lvl (.arr []) = ['[', ']'] from by rw [serVal]]
      simp [jsize, jsizeArr]
    | cons x xs =>
      rw [show serVal lvl (.arr (x :: xs)) = '[' :: (newlineInd (lvl + 1) ++
        serVal (lvl + 1) x ++ serElems (lvl + 1) xs ++ newlineInd lvl ++ [']']) from by
        rw [serVal]]
      have h1 := jsize_le_length x (lvl + 1)
      have h2 := jsizeArr_le_length xs (lvl + 1)
      simp [jsize, jsizeArr, newlineInd]
      omega
  | obj l =>
    cases l with
    | nil =>
      rw [show serVal lvl (.obj []) = ['\x7b', '\x7d'] from by rw [serVal]]
      simp [jsize, jsizeObj]
    | cons p ms =>
      obtain ⟨k, v2⟩ := p
      rw [show serVal lvl (.obj ((k, v2) :: ms)) = '\x7b' :: (newlineInd (lvl + 1) ++
        serStr k ++ ':' :: ' ' :: serVal (lvl + 1) v2 ++ serMembers (lvl + 1) ms ++
        newlineInd lvl ++ ['\x7d']) from by rw [serVal]]
      have h1 := jsize_le_length v2 (lvl + 1)
      have h2 := jsizeObj_le_length ms (lvl + 1)
      simp [jsize, jsizeObj, newlineInd, serStr]
      omega

theorem jsizeArr_le_length (l : List Json) : ∀ lvl, jsizeArr l ≤ (serElems lvl l).length + 1 := by
  intro lvl
  cases l with
  | nil =>
    rw [show serElems lvl [] = [] from by rw [serElems]]
    simp [jsizeArr]
  | cons x xs =>
    rw [show serElems lvl (x :: xs) = ',' :: (newlineInd lvl ++ serVal lvl x ++
      serElems lvl xs) from by rw [serElems]]
    have h1 := jsize_le_length x lvl
    have h2 := jsizeArr_le_length xs lvl
    simp [jsizeArr, newlineInd]
    omega

theorem jsizeObj_le_length (l : List (String × Json)) :
    ∀ lvl, jsizeObj l ≤ (serMembers lvl l).length + 1 := by
  intro lvl
  cases l with
  | nil =>
    rw [show serMembers lvl [] = [] from by rw [serMembers]]
    simp [jsizeObj]
  | cons p ms =>
    obtain ⟨k, v⟩ := p
    rw [show serMembers lvl ((k, v) :: ms) = ',' :: (newlineInd lvl ++ serStr k ++
      ':' :: ' ' :: serVal lvl v ++ serMembers lvl ms) from by rw [serMembers]]
    have h1 := jsize_le_length v lvl
    have h2 := jsizeObj_le_length ms lvl
    simp [jsizeObj, newlineInd, serStr]
    omega

end

/-- The executable reader inverts the executable writer on every JSON
value: parsing the pretty-printed text returns exactly the value. -/
theorem json_loads_dumps (v : Json) : json_loads (json_dumps v) = some v := by
  unfold json_loads json_dumps
  obtain ⟨P, _, _⟩ := parse_ser_all ((String.mk (serVal 0 v)).data.length + 1)
  have hfuel : jsize v ≤ (String.mk (serVal 0 v)).data.length + 1 := by
    have := jsize_le_length v 0
    simp only [String.data]
    omega
  have hp := P v 0 [] hfuel rfl
  rw [List.append_nil] at hp
  rw [show (String.mk (serVal 0 v)).data = serVal 0 v from rfl] at hp ⊢
  rw [hp]
  simp [skipWs]

/-! ## Supporting lemmas: the fetcher loop -/

theorem buildRecords_map_obj (l : List (List (String × Json))) :
    buildRecords (l.map Json.obj) = some (l.map data_of) := by
  induction l with
  | nil => rfl
  | cons p ps ih => simp [buildRecords, ih]

theorem contentTypeOk_json : contentTypeOk [("Content-Type", "application/json")] = true := by
  rfl

theorem fetcher_go_empty_page (rest : List NetEvent) (page : Nat) (acc : List Json)
    (reqs : List (List (String × String))) :
    fetcher_go (okArrayPage [] :: rest) page acc reqs =
      ⟨some acc, [], reqs ++ [requestParams page]⟩ := by
  rw [fetcher_go.eq_def]
  simp [okArrayPage, contentTypeOk_json, pyTruthy]

theorem fetcher_go_short_page (rest : List NetEvent) (page : Nat) (acc : List Json)
    (reqs : List (List (String × String))) (l : List (List (String × Json)))
    (hne : l ≠ []) (hlen : l.length < 30) :
    fetcher_go (okArrayPage l :: rest) page acc reqs =
      ⟨some (acc ++ l.map data_of), [], reqs ++ [requestParams page]⟩ := by
  rw [fetcher_go.eq_def]
  simp [okArrayPage, contentTypeOk_json, pyTruthy, hne, hlen, buildRecords_map_obj l]

theorem fetcher_go_full_page (rest : List NetEvent) (page : Nat) (acc : List Json)
    (reqs : List (List (String × String))) (l : List (List (String × Json)))
    (hlen : 30 ≤ l.length) :
    fetcher_go (okArrayPage l :: rest) page acc reqs =
      fetcher_go rest (page + 1) (acc ++ l.map data_of) (reqs ++ [requestParams page]) := by
  have hne : l ≠ [] := by
    intro h
    rw [h] at hlen
    simp at hlen
  rw [fetcher_go.eq_def]
  simp [okArrayPage, contentTypeOk_json, pyTruthy, hne, Nat.not_lt.mpr hlen,
    buildRecords_map_obj l]

theorem fetcher_go_pages (full : List (List (List (String × Json)))) :
    ∀ (last : List (List (String × Json))) (ignored : List NetEvent) (page : Nat)
      (acc : List Json) (reqs : List (List (String × String))),
      (∀ p ∈ full, 30 ≤ p.length) → last.length < 30 →
      fetcher_go ((full.map okArrayPage) ++ (okArrayPage last :: ignored)) page acc reqs =
        ⟨some (acc ++ ((full ++ [last]).map (fun p => p.map data_of)).flatten), [],
          reqs ++ (List.range' page (full.length + 1)).map requestParams⟩ := by
  induction full with
  | nil =>
    intro last ignored page acc reqs _ hlast
    simp only [List.map_nil, List.nil_append, List.length_nil, List.range'_one, List.map_cons,
      List.map_nil, List.flatten]
    by_cases hne : last = []
    · subst hne
      rw [fetcher_go_empty_page]
      simp
    · rw [fetcher_go_short_page _ _ _ _ _ hne hlast]
      simp
  | cons p full ih =>
    intro last ignored page acc reqs hfull hlast
    have hp : 30 ≤ p.length := hfull p (by simp)
    simp only [List.map_cons, List.cons_append]
    rw [fetcher_go_full_page _ _ _ _ _ hp]
    rw [ih last ignored (page + 1) (acc ++ p.map data_of) (reqs ++ [requestParams page])
      (fun q hq => hfull q (by simp [hq])) hlast]
    have hrange : List.range' page (full.length + 1 + 1) =
        page :: List.range' (page + 1) (full.length + 1) := List.range'_succ _ _ _
    simp [hrange, List.flatten]

theorem fetcher_go_403 (r : HttpResponse) (rest : List NetEvent) (page : Nat)
    (acc : List Json) (reqs : List (List (String × String))) (h : r.status = 403) :
    fetcher_go (.ok r :: rest) page acc reqs =
      ⟨none, [rateLimitMsg r.headers], reqs ++ [requestParams page]⟩ := by
  rw [fetcher_go.eq_def]
  simp [h]

theorem fetcher_go_httpError (r : HttpResponse) (rest : List NetEvent) (page : Nat)
    (acc : List Json) (reqs : List (List (String × String)))
    (h403 : ¬r.status = 403) (h4 : 400 ≤ r.status) (h6 : r.status < 600) :
    fetcher_go (.ok r :: rest) page acc reqs =
      ⟨none, [httpErrorMsg r.status], reqs ++ [requestParams page]⟩ := by
  rw [fetcher_go.eq_def]
  simp [h403, h4, h6]

theorem fetcher_go_badctype (r : HttpResponse) (rest : List NetEvent) (page : Nat)
    (acc : List Json) (reqs : List (List (String × String)))
    (h403 : ¬r.status = 403) (herr : ¬(400 ≤ r.status ∧ r.status < 600))
    (hct : contentTypeOk r.headers = false) :
    fetcher_go (.ok r :: rest) page acc reqs =
      ⟨none, ["Not JSON"], reqs ++ [requestParams page]⟩ := by
  rw [fetcher_go.eq_def]
  simp [h403, herr, hct]

theorem fetcher_go_badjson (r : HttpResponse) (rest : List NetEvent) (page : Nat)
    (acc : List Json) (reqs : List (List (String × String)))
    (h403 : ¬r.status = 403) (herr : ¬(400 ≤ r.status ∧ r.status < 600))
    (hct : contentTypeOk r.headers = true) (hb : r.body = none) :
    fetcher_go (.ok r :: rest) page acc reqs =
      ⟨none, ["Invalid JSON"], reqs ++ [requestParams page]⟩ := by
  rw [fetcher_go.eq_def]
  simp [h403, herr, hct, hb]

theorem fetcher_timeout (rest : List NetEvent) :
    fetcher (.timeout :: rest) = ⟨none, ["Request timed out."], [requestParams 1]⟩ := by
  unfold fetcher
  rw [fetcher_go.eq_def]
  simp

theorem fetcher_connError (rest : List NetEvent) :
    fetcher (.connError :: rest) = ⟨none, ["Connection error"], [requestParams 1]⟩ := by
  unfold fetcher
  rw [fetcher_go.eq_def]
  simp

theorem fetcher_result_badctype (r : HttpResponse) (rest : List NetEvent)
    (hct : contentTypeOk r.headers = false) :
    (fetcher (.ok r :: rest)).result = none := by
  unfold fetcher
  by_cases h403 : r.status = 403
  · rw [fetcher_go_403 _ _ _ _ _ h403]
  · by_cases herr : 400 ≤ r.status ∧ r.status < 600
    · rw [fetcher_go_httpError _ _ _ _ _ h403 herr.1 herr.2]
    · rw [fetcher_go_badctype _ _ _ _ _ h403 herr hct]

theorem fetcher_result_badjson (r : HttpResponse) (rest : List NetEvent)
    (hb : r.body = none) :
    (fetcher (.ok r :: rest)).result = none := by
  unfold fetcher
  by_cases h403 : r.status = 403
  · rw [fetcher_go_403 _ _ _ _ _ h403]
  · by_cases herr : 400 ≤ r.status ∧ r.status < 600
    · rw [fetcher_go_httpError _ _ _ _ _ h403 herr.1 herr.2]
    · by_cases hct : contentTypeOk r.headers = true
      · rw [fetcher_go_badjson _ _ _ _ _ h403 herr hct hb]
      · rw [fetcher_go_badctype _ _ _ _ _ h403 herr (by revert hct; cases contentTypeOk r.headers <;> simp)]

/-! ## Supporting lemmas: record construction -/

theorem find?_append_none {α : Type} (p : α → Bool) (l1 l2 : List α)
    (h : List.find? p l1 = none) : List.find? p (l1 ++ l2) = List.find? p l2 := by
  induction l1 with
  | nil => rfl
  | cons x xs ih =>
    rw [List.find?_cons] at h
    rcases hx : p x with hf | ht
    · rw [List.cons_append, List.find?_cons, hx]
      apply ih
      rw [hx] at h
      simpa using h
    · rw [hx] at h
      simp at h

theorem pyGet_absent (fields : List (String × Json)) (k : String)
    (h : ∀ p ∈ fields, ¬p.1 = k) : pyGet fields k = Json.null := by
  unfold pyGet
  rw [List.find?_eq_none.mpr]
  intro p hp
  simp only [beq_iff_eq]
  exact h p (List.mem_reverse.mp hp)

theorem pyGet_last (pre post : List (String × Json)) (k : String) (v : Json)
    (h : ∀ p ∈ post, ¬p.1 = k) : pyGet (pre ++ (k, v) :: post) k = v := by
  unfold pyGet
  have hrev : (pre ++ (k, v) :: post).reverse = post.reverse ++ ((k, v) :: pre.reverse) := by
    simp
  rw [hrev]
  rw [find?_append_none _ _ _ (List.find?_eq_none.mpr (fun p hp => by
    simp only [beq_iff_eq]
    exact h p (List.mem_reverse.mp hp)))]
  rw [List.find?_cons]
  simp

/-! ## Supporting lemmas: retry policy -/

theorem retryGo_le (cfg : RetryConfig) (method : String) :
    ∀ (statuses : List Nat) (fuel : Nat), retryGo cfg method statuses fuel ≤ fuel := by
  intro statuses
  induction statuses with
  | nil =>
    intro fuel
    rw [retryGo]
    omega
  | cons s rest ih =>
    intro fuel
    cases fuel with
    | zero => rw [retryGo]
    | succ f =>
      rw [retryGo]
      by_cases hr : retryable cfg method s = true
      · rw [if_pos hr]
        by_cases hf : f = 0
        · rw [if_pos hf]
          omega
        · rw [if_neg hf]
          have := ih f
          omega
      · rw [if_neg hr]
        omega

theorem retryGo_no_retry (cfg : RetryConfig) (method : String) (s : Nat)
    (rest : List Nat) (fuel : Nat) (h : retryable cfg method s = false) (hf : 1 ≤ fuel) :
    retryGo cfg method (s :: rest) fuel = 1 := by
  cases fuel with
  | zero => omega
  | succ f =>
    rw [retryGo]
    simp [h]

/-! ## Supporting lemmas: the interactive sentinel -/

theorem pyIsSpace_false_of_range (c : Char) (h1 : 33 ≤ c.toNat) (h2 : c.toNat < 133) :
    pyIsSpace c = false := by
  by_contra hc
  have hw : pyIsSpace c = true := by revert hc; cases pyIsSpace c <;> simp
  unfold pyIsSpace at hw
  simp at hw
  omega

theorem pyIsSpace_lowerChar (c : Char) : pyIsSpace (pyLowerChar c) = pyIsSpace c := by
  unfold pyLowerChar
  by_cases h : 'A' ≤ c ∧ c ≤ 'Z'
  · rw [if_pos h]
    obtain ⟨h1, h2⟩ := h
    rw [char_le_iff_toNat] at h1 h2
    rw [show Char.toNat 'A' = 65 from by decide] at h1
    rw [show Char.toNat 'Z' = 90 from by decide] at h2
    have hval : (Char.ofNat (c.toNat + 32)).toNat = c.toNat + 32 :=
      char_toNat_ofNat _ (Or.inl (by omega))
    rw [pyIsSpace_false_of_range _ (by omega) (by omega),
      pyIsSpace_false_of_range _ (by omega) (by omega)]
  · rw [if_neg h]

theorem data_mk (l : List Char) : (String.mk l).data = l := rfl

theorem pyStrip_pyLower (s : String) : pyStrip (pyLower s) = pyLower (pyStrip s) := by
  unfold pyStrip pyLower
  have hfun : (pyIsSpace ∘ pyLowerChar) = pyIsSpace := funext pyIsSpace_lowerChar
  have l1 : ∀ l : List Char, (l.map pyLowerChar).dropWhile pyIsSpace =
      (l.dropWhile pyIsSpace).map pyLowerChar := by
    intro l
    rw [List.dropWhile_map, hfun]
  simp only [data_mk]
  rw [l1, ← List.map_reverse, l1, List.map_reverse]

theorem exit_check_iff (s : String) :
    exit_check s = true ↔ pyLower (pyStrip s) = "exit" := by
  unfold exit_check
  rw [pyStrip_pyLower]
  exact beq_iff_eq

/-! ## The claims -/

/-- C1: for every sequence of page responses, fetch requests pages
sequentially starting at page 1 with per_page 30 in every request, stops
exactly at the first page with fewer than 30 items (an empty page
included), and returns the concatenation of the normalized records of all
pages visited in API order; later pages are never requested. -/
theorem fetch_pagination (full : List (List (List (String × Json))))
    (last : List (List (String × Json))) (ignored : List NetEvent)
    (hfull : ∀ p ∈ full, 30 ≤ p.length) (hlast : last.length < 30) :
    fetcher ((full.map okArrayPage) ++ (okArrayPage last :: ignored)) =
      ⟨some (((full ++ [last]).map (fun p => p.map data_of)).flatten), [],
        (List.range' 1 (full.length + 1)).map requestParams⟩ ∧
    (∀ n, ("per_page", "30") ∈ requestParams n ∧ ("page", toString n) ∈ requestParams n) := by
  constructor
  · unfold fetcher
    rw [fetcher_go_pages full last ignored 1 [] [] hfull hlast]
    simp
  · intro n
    simp [requestParams]

/-- C1 witness: exactly 30 items on page 1 and 0 items on page 2 give a
result of exactly 30 records, and page 3 is never requested. -/
theorem fetch_pagination_witness :
    fetcher [okArrayPage (List.replicate 30 []), okArrayPage []] =
      ⟨some (List.replicate 30 (data_of [])), [], [requestParams 1, requestParams 2]⟩ ∧
    (List.replicate 30 (data_of [])).length = 30 := by
  have h := (fetch_pagination [List.replicate 30 []] [] []
    (by intro p hp; simp at hp; rw [hp]; simp) (by simp)).1
  constructor
  · rw [show ([okArrayPage (List.replicate 30 []), okArrayPage []] : List NetEvent) =
      (([List.replicate 30 []].map okArrayPage) ++ (okArrayPage [] :: [])) from rfl, h]
    simp [List.map_replicate, List.range']
  · simp

/-- C2: each normalized record is an object with exactly the six fields
name, description, stars, language, created_at and updated_at, where
stars is drawn from the API field stargazers_count and the rest from the
same-named API field; a present field is passed through verbatim and an
absent field becomes null. -/
theorem record_normalization (repo : List (String × Json)) :
    data_of repo = Json.obj [("name", pyGet repo "name"),
      ("description", pyGet repo "description"),
      ("stars", pyGet repo "stargazers_count"), ("language", pyGet repo "language"),
      ("created_at", pyGet repo "created_at"), ("updated_at", pyGet repo "updated_at")] ∧
    (∀ k, (∀ p ∈ repo, ¬p.1 = k) → pyGet repo k = Json.null) ∧
    (∀ k v pre post, repo = pre ++ (k, v) :: post → (∀ p ∈ post, ¬p.1 = k) →
      pyGet repo k = v) := by
  refine ⟨rfl, fun k hk => pyGet_absent repo k hk, ?_⟩
  intro k v pre post hrepo hpost
  rw [hrepo]
  exact pyGet_last pre post k v hpost

/-- C2 witness: a repository object with only name and stargazers_count
yields the six-field record with stars copied and the other fields
null. -/
theorem record_normalization_witness :
    data_of [("name", Json.str "r"), ("stargazers_count", Json.int 7)] =
      Json.obj [("name", Json.str "r"), ("description", Json.null), ("stars", Json.int 7),
        ("language", Json.null), ("created_at", Json.null), ("updated_at", Json.null)] ∧
    pyGet [("name", Json.str "r"), ("stargazers_count", Json.int 7)] "language" =
      Json.null := by
  have h := record_normalization [("name", Json.str "r"), ("stargazers_count", Json.int 7)]
  constructor
  · rw [h.1]
    rfl
  · exact h.2.1 "language" (by intro p hp; simp at hp; rcases hp with rfl | rfl <;> decide)

/-- C3: a 403 response whose X-RateLimit-Reset header holds a Unix
timestamp makes fetch print the reset time shifted by the fixed 5 hour
30 minute offset in the DD-Mon-YYYY 12-hour AM/PM format suffixed IST,
return the failure signal without requesting anything further, and the
adapter never retries a 403. -/
theorem ratelimit_reset_format (hs : List (String × String)) (body : Option Json)
    (s : String) (ts : Int)
    (hhdr : headerGet hs "X-RateLimit-Reset" = some s)
    (hparse : pyInt s = some ts) :
    (∀ rest : List NetEvent,
      fetcher (.ok ⟨403, hs, body⟩ :: rest) =
        ⟨none, ["Rate limit exceeded. It will reset at: " ++ convert_reset_to_ist ts],
          [requestParams 1]⟩) ∧
    convert_reset_to_ist ts = strftimeIST (ts + (5 * 3600 + 30 * 60)) ∧
    (∀ more : List Nat, attemptsMade retry_strategy "GET" (403 :: more) = 1) := by
  have hsne : ¬s = "" := by
    intro he
    rw [he] at hparse
    exact Option.noConfusion hparse
  refine ⟨?_, rfl, ?_⟩
  · intro rest
    unfold fetcher
    rw [fetcher_go_403 _ _ _ _ _ rfl]
    simp [rateLimitMsg, hhdr, hsne, hparse]
  · intro more
    unfold attemptsMade
    exact retryGo_no_retry _ _ _ _ _ (by decide) (by decide)

/-- C3 witness: header value 1700000000 prints the concrete reset time
15-Nov-2023 03:43:20 AM IST and fetch fails. -/
theorem ratelimit_reset_format_witness :
    fetcher [.ok ⟨403, [("X-RateLimit-Reset", "1700000000")], none⟩] =
      ⟨none, ["Rate limit exceeded. It will reset at: 15-Nov-2023 03:43:20 AM IST"],
        [requestParams 1]⟩ ∧
    convert_reset_to_ist 1700000000 = "15-Nov-2023 03:43:20 AM IST" := by
  have h := ratelimit_reset_format [("X-RateLimit-Reset", "1700000000")] none
    "1700000000" 1700000000 (by rfl) (by rfl)
  constructor
  · rw [h.1 []]
    rfl
  · rfl

/-- C4: a response with a non-JSON content type, and a response whose
body fails to parse as JSON, each make fetch report the corresponding
error and return the failure signal, and the non-interactive pipeline
then writes nothing and exits with code 1. -/
theorem fetch_badcontent_failure (r : HttpResponse) (rest : List NetEvent) (out : String) :
    (contentTypeOk r.headers = false → (fetcher (.ok r :: rest)).result = none) ∧
    (r.body = none → (fetcher (.ok r :: rest)).result = none) ∧
    (¬r.status = 403 → ¬(400 ≤ r.status ∧ r.status < 600) → contentTypeOk r.headers = false →
      fetcher (.ok r :: rest) = ⟨none, ["Not JSON"], [requestParams 1]⟩) ∧
    (¬r.status = 403 → ¬(400 ≤ r.status ∧ r.status < 600) → contentTypeOk r.headers = true →
      r.body = none → fetcher (.ok r :: rest) = ⟨none, ["Invalid JSON"], [requestParams 1]⟩) ∧
    ((fetcher (.ok r :: rest)).result = none → run_cli (.ok r :: rest) out = (none, 1)) := by
  refine ⟨fetcher_result_badctype r rest, fetcher_result_badjson r rest, ?_, ?_, ?_⟩
  · intro h403 herr hct
    unfold fetcher
    rw [fetcher_go_badctype _ _ _ _ _ h403 herr hct]
    rfl
  · intro h403 herr hct hb
    unfold fetcher
    rw [fetcher_go_badjson _ _ _ _ _ h403 herr hct hb]
    rfl
  · intro hres
    unfold run_cli
    rw [hres]
    rfl

/-- C4 witness: a 200 response with content type text/html fails with the
Not JSON message, writes nothing and exits 1; a JSON-typed response with
an unparseable body fails with the Invalid JSON message. -/
theorem fetch_badcontent_failure_witness :
    fetcher [.ok ⟨200, [("Content-Type", "text/html")], some (Json.arr [])⟩] =
      ⟨none, ["Not JSON"], [requestParams 1]⟩ ∧
    run_cli [.ok ⟨200, [("Content-Type", "text/html")], some (Json.arr [])⟩] "o.json" =
      (none, 1) ∧
    fetcher [.ok ⟨200, [("Content-Type", "application/json")], none⟩] =
      ⟨none, ["Invalid JSON"], [requestParams 1]⟩ := by
  have h1 := fetch_badcontent_failure ⟨200, [("Content-Type", "text/html")], some (Json.arr [])⟩
    [] "o.json"
  have h2 := fetch_badcontent_failure ⟨200, [("Content-Type", "application/json")], none⟩
    [] "o.json"
  have hct : fetcher [.ok ⟨200, [("Content-Type", "text/html")], some (Json.arr [])⟩] =
      ⟨none, ["Not JSON"], [requestParams 1]⟩ :=
    h1.2.2.1 (by decide) (by decide) (by decide)
  refine ⟨hct, h1.2.2.2.2 (by rw [hct]), ?_⟩
  exact h2.2.2.2.1 (by decide) (by decide) (by decide) rfl

/-- C5: the fetch outcome is one of exactly three shapes: the failure
signal none (produced by timeout, connection error, HTTP error status,
rate limiting, bad content type and invalid JSON alike), the empty list,
or a non-empty list; non-interactively the process exits 1 on none or the
empty list and 0 on a non-empty list. -/
theorem fetch_outcomes_exit (out : String) :
    (∀ r : Option (List Json), r = none ∨ r = some [] ∨ ∃ x xs, r = some (x :: xs)) ∧
    main_cli none out = (none, 1) ∧
    main_cli (some []) out = (none, 1) ∧
    (∀ x xs, (main_cli (some (x :: xs)) out).2 = 0) ∧
    (∀ rest, (fetcher (.timeout :: rest)).result = none) ∧
    (∀ rest, (fetcher (.connError :: rest)).result = none) ∧
    (∀ (r : HttpResponse) (rest : List NetEvent), 400 ≤ r.status → r.status < 600 →
      (fetcher (.ok r :: rest)).result = none) ∧
    (∀ (r : HttpResponse) (rest : List NetEvent), r.status = 403 →
      (fetcher (.ok r :: rest)).result = none) ∧
    (∀ (r : HttpResponse) (rest : List NetEvent), contentTypeOk r.headers = false →
      (fetcher (.ok r :: rest)).result = none) ∧
    (∀ (r : HttpResponse) (rest : List NetEvent), r.body = none →
      (fetcher (.ok r :: rest)).result = none) := by
  refine ⟨?_, rfl, rfl, fun x xs => rfl, ?_, ?_, ?_, ?_,
    fun r rest h => fetcher_result_badctype r rest h,
    fun r rest h => fetcher_result_badjson r rest h⟩
  · intro r
    rcases r with _ | l
    · exact Or.inl rfl
    · cases l with
      | nil => exact Or.inr (Or.inl rfl)
      | cons x xs => exact Or.inr (Or.inr ⟨x, xs, rfl⟩)
  · intro rest
    rw [fetcher_timeout]
  · intro rest
    rw [fetcher_connError]
  · intro r rest h4 h6
    unfold fetcher
    by_cases h403 : r.status = 403
    · rw [fetcher_go_403 _ _ _ _ _ h403]
    · rw [fetcher_go_httpError _ _ _ _ _ h403 h4 h6]
  · intro r rest h403
    unfold fetcher
    rw [fetcher_go_403 _ _ _ _ _ h403]

/-- C5 witness: the exit codes at concrete outcomes and a concrete
failing 500 response. -/
theorem fetch_outcomes_exit_witness :
    main_cli none "o.json" = (none, 1) ∧
    main_cli (some []) "o.json" = (none, 1) ∧
    (main_cli (some [Json.null]) "o.json").2 = 0 ∧
    (fetcher [.ok ⟨500, [], none⟩]).result = none := by
  have h := fetch_outcomes_exit "o.json"
  exact ⟨h.2.1, h.2.2.1, h.2.2.2.1 Json.null [],
    h.2.2.2.2.2.2.1 ⟨500, [], none⟩ [] (by decide) (by decide)⟩

/-- C6: the writer performs no file operation when given the failure
signal or an empty record list, and otherwise writes exactly the records
serialized as pretty-printed JSON with an indent of 4 spaces to the given
path. -/
theorem write_file_noop_or_dump (path : String) :
    write_file none path = none ∧
    write_file (some []) path = none ∧
    (∀ l : List Json, l ≠ [] → write_file (some l) path = some (path, json_dumps (Json.arr l))) ∧
    json_dumps (Json.arr [Json.null]) = "[\n    null\n]" := by
  refine ⟨rfl, rfl, ?_, by rfl⟩
  intro l hl
  cases l with
  | nil => exact absurd rfl hl
  | cons x xs => rfl

/-- C6 witness: one record is written to the default path as the
4-space-indented document. -/
theorem write_file_noop_or_dump_witness :
    write_file (some [Json.null]) "github_repos.json" =
      some ("github_repos.json", "[\n    null\n]") := by
  have h := (write_file_noop_or_dump "github_repos.json").2.2.1 [Json.null] (by simp)
  rw [h, (write_file_noop_or_dump "github_repos.json").2.2.2]

/-- C7: the retry configuration bounds automatic retry so that one
request makes at most 3 attempts under the spec-modelled urllib3
execution, retries apply only to GET and only on the transient statuses
429, 500, 502, 503 and 504, backoff grows exponentially from the base
factor 0.5, and a server-provided Retry-After delay is honored. -/
theorem retry_policy_bounded :
    retry_strategy.total = 3 ∧
    retry_strategy.backoff_factor = 1 / 2 ∧
    retry_strategy.status_forcelist = [429, 500, 502, 503, 504] ∧
    retry_strategy.allowed_methods = ["GET"] ∧
    retry_strategy.respect_retry_after_header = true ∧
    (∀ method statuses, attemptsMade retry_strategy method statuses ≤ 3) ∧
    (∀ method s rest, ¬method = "GET" →
      attemptsMade retry_strategy method (s :: rest) = 1) ∧
    (∀ (s : Nat) (rest : List Nat), s ∉ ([429, 500, 502, 503, 504] : List Nat) →
      attemptsMade retry_strategy "GET" (s :: rest) = 1) ∧
    (∀ k, backoffDelay retry_strategy (k + 1) = (1 / 2 : ℚ) * 2 ^ k) ∧
    (∀ k t, t ≤ retryDelay retry_strategy k (some t)) := by
  refine ⟨rfl, rfl, rfl, rfl, rfl, ?_, ?_, ?_, ?_, ?_⟩
  · intro method statuses
    exact retryGo_le retry_strategy method statuses 3
  · intro method s rest hm
    unfold attemptsMade
    apply retryGo_no_retry
    · unfold retryable retry_strategy
      simp only [Bool.and_eq_false_iff]
      left
      simpa using hm
    · decide
  · intro s rest hs
    unfold attemptsMade
    apply retryGo_no_retry
    · unfold retryable retry_strategy
      simp only [Bool.and_eq_false_iff]
      right
      simpa using hs
    · decide
  · intro k
    unfold backoffDelay retry_strategy
    simp
  · intro k t
    unfold retryDelay retry_strategy
    simp [le_max_right]

/-- C7 witness: a run of 500 responses is cut off after 3 attempts, a
POST and a non-transient status get exactly one attempt, and a concrete
Retry-After of 7 seconds is honored. -/
theorem retry_policy_bounded_witness :
    attemptsMade retry_strategy "GET" [500, 500, 500, 500, 500] ≤ 3 ∧
    attemptsMade retry_strategy "POST" [500] = 1 ∧
    attemptsMade retry_strategy "GET" [404] = 1 ∧
    (7 : ℚ) ≤ retryDelay retry_strategy 1 (some 7) := by
  have h := retry_policy_bounded
  exact ⟨h.2.2.2.2.2.1 "GET" [500, 500, 500, 500, 500],
    h.2.2.2.2.2.2.1 "POST" 500 [] (by decide),
    h.2.2.2.2.2.2.2.1 404 [] (by decide),
    h.2.2.2.2.2.2.2.2.2 1 7⟩

/-- C8: any non-empty record sequence produced by the fetcher, written by
the writer, parses back from the written text to exactly the same
sequence, field for field. -/
theorem write_roundtrip (rs : List (List (String × Json))) (path : String) (h : rs ≠ []) :
    ∃ content : String, write_file (some (rs.map data_of)) path = some (path, content) ∧
      json_loads content = some (Json.arr (rs.map data_of)) := by
  obtain ⟨p, ps, rfl⟩ := List.exists_cons_of_ne_nil h
  exact ⟨json_dumps (Json.arr ((p :: ps).map data_of)), rfl, json_loads_dumps _⟩

/-- C8 witness: a one-record sequence written and read back. -/
theorem write_roundtrip_witness :
    ∃ content : String,
      write_file (some ([[("name", Json.str "r")]].map data_of)) "o.json" =
        some ("o.json", content) ∧
      json_loads content = some (Json.arr ([[("name", Json.str "r")]].map data_of)) :=
  write_roundtrip [[("name", Json.str "r")]] "o.json" (by simp)

/-- C9: an interactive input terminates the loop exactly when it equals
exit after stripping surrounding whitespace and lowercasing, so EXIT and
padded exit are sentinels and other inputs are treated as account
names. -/
theorem interactive_exit_sentinel :
    (∀ s, exit_check s = true ↔ pyLower (pyStrip s) = "exit") ∧
    exit_check "EXIT" = true ∧
    exit_check "  exit  " = true ∧
    exit_check "Exit" = true ∧
    exit_check "exit\x1c" = true ∧
    exit_check "exit\u00A0" = true ∧
    exit_check "username" = false ∧
    (∀ s rest, interactive_names (s :: rest) =
      if exit_check s = true then [] else s :: interactive_names rest) := by
  refine ⟨exit_check_iff, by decide, by decide, by decide, by decide, by decide, by decide, ?_⟩
  intro s rest
  rfl

/-- C10: a 403 response with the rate-limit header absent or empty still
returns the failure signal, printing the no-reset-time message, with no
retry and no further request. -/
theorem ratelimit_no_reset (hs : List (String × String)) (body : Option Json)
    (h : headerGet hs "X-RateLimit-Reset" = none ∨
      headerGet hs "X-RateLimit-Reset" = some "") :
    (∀ rest : List NetEvent, fetcher (.ok ⟨403, hs, body⟩ :: rest) =
      ⟨none, ["Rate limit exceeded. No reset time provided."], [requestParams 1]⟩) ∧
    (∀ more : List Nat, attemptsMade retry_strategy "GET" (403 :: more) = 1) := by
  constructor
  · intro rest
    unfold fetcher
    rw [fetcher_go_403 _ _ _ _ _ rfl]
    have hmsg : rateLimitMsg hs = "Rate limit exceeded. No reset time provided." := by
      unfold rateLimitMsg
      rcases h with h | h <;> rw [h] <;> simp
    rw [hmsg]
    rfl
  · intro more
    unfold attemptsMade
    exact retryGo_no_retry _ _ _ _ _ (by decide) (by decide)

/-- C10 witness: a bare 403 with no headers at all fails with the
no-reset-time message after a single attempt. -/
theorem ratelimit_no_reset_witness :
    fetcher [.ok ⟨403, [], none⟩] =
      ⟨none, ["Rate limit exceeded. No reset time provided."], [requestParams 1]⟩ ∧
    attemptsMade retry_strategy "GET" [403] = 1 := by
  have h := ratelimit_no_reset [] none (Or.inl rfl)
  exact ⟨h.1 [], h.2 []⟩
